import Mathlib

/-!
Shallow embedding of the preu-app ingestion pipeline
(queue store, price ledger, batch orchestrator) and proofs of the
frozen claims about it.

Conventions:
* timestamps are `Nat`; the wall clock is a function `clock : Nat → Nat`
  together with a tick index carried in the state — each call to
  `datetime.now(timezone.utc)` in the source reads `clock tick` and
  advances the tick;
* decimal prices are `Option ℚ` (`none` = SQL NULL);
* fallible operations return `Except String _` (a raised `ValueError`
  becomes `.error msg`).
-/

/-- A row of the `product_scan_queue` table (`app/models.py`,
`ProductScanQueue`). -/
structure QueueEntry where
  product_id : Nat
  supermarket_name : String
  last_scanned : Option Nat
  scan_priority : Int
  scan_count : Nat
  last_error : Option String
  error_count : Nat
  created_at : Nat
  updated_at : Nat
deriving DecidableEq

/-- `last_scanned ASC NULLS FIRST` comparison: a NULL sorts before every
timestamp. -/
def lsLE : Option Nat → Option Nat → Prop
  | none, _ => True
  | some _, none => False
  | some x, some y => x ≤ y

instance : DecidableRel lsLE := fun a b =>
  match a, b with
  | none, _ => isTrue trivial
  | some _, none => isFalse (fun h => h)
  | some x, some y => inferInstanceAs (Decidable (x ≤ y))

/-- The ORDER BY key of `QueueRepository.get_products_to_scan`
(`app/repositories/queue_repository.py`): `scan_priority DESC`, then
`last_scanned ASC NULLS FIRST`. -/
def queueLE (a b : QueueEntry) : Prop :=
  b.scan_priority < a.scan_priority ∨
    (a.scan_priority = b.scan_priority ∧ lsLE a.last_scanned b.last_scanned)

instance : DecidableRel queueLE := fun a b =>
  inferInstanceAs (Decidable (_ ∨ _))

instance : IsTotal QueueEntry queueLE where
  total a b := by
    rcases lt_trichotomy a.scan_priority b.scan_priority with h | h | h
    · exact Or.inr (Or.inl h)
    · rcases hls : a.last_scanned with _ | x <;> rcases hls' : b.last_scanned with _ | y
      · exact Or.inl (Or.inr ⟨h, by simp [lsLE, hls, hls']⟩)
      · exact Or.inl (Or.inr ⟨h, by simp [lsLE, hls, hls']⟩)
      · exact Or.inr (Or.inr ⟨h.symm, by simp [lsLE, hls, hls']⟩)
      · rcases le_total x y with hxy | hxy
        · exact Or.inl (Or.inr ⟨h, by simp [lsLE, hls, hls', hxy]⟩)
        · exact Or.inr (Or.inr ⟨h.symm, by simp [lsLE, hls, hls', hxy]⟩)
    · exact Or.inl (Or.inl h)

theorem lsLE_trans {a b c : Option Nat} (h1 : lsLE a b) (h2 : lsLE b c) : lsLE a c := by
  cases a <;> cases b <;> cases c <;> simp_all [lsLE] <;> omega

instance : IsTrans QueueEntry queueLE where
  trans a b c h1 h2 := by
    rcases h1 with h1 | ⟨h1, h1'⟩ <;> rcases h2 with h2 | ⟨h2, h2'⟩
    · exact Or.inl (h2.trans h1)
    · exact Or.inl (h2 ▸ h1)
    · exact Or.inl (h1 ▸ h2)
    · exact Or.inr ⟨h1.trans h2, lsLE_trans h1' h2'⟩

/-- `QueueRepository.get_products_to_scan`: all rows of the supermarket,
ordered by `scan_priority DESC, last_scanned ASC NULLS FIRST`, limited. -/
def get_products_to_scan (entries : List QueueEntry) (name : String)
    (limit : Nat) : List QueueEntry :=
  (List.insertionSort queueLE
    (entries.filter (fun e => e.supermarket_name == name))).take limit

/-- The urgency test of `QueueService.get_next_batch`
(`app/services/queue_service.py`): `error_count > 0 or last_scanned is None`. -/
def isHigh (p : QueueEntry) : Bool :=
  decide (0 < p.error_count) || p.last_scanned.isNone

/-- `QueueService.get_next_batch`: validate inputs, fetch `2*batch_size`
candidates, split into high/normal priority, return high first then fill
from normal. -/
def get_next_batch (entries : List QueueEntry) (name : String)
    (batch_size : Nat) : Except String (List QueueEntry) :=
  if batch_size = 0 then .error "Batch size must be greater than 0"
  else if name = "" then .error "Supermarket name is required"
  else
    let products := get_products_to_scan entries name (batch_size * 2)
    let parts := products.partition (fun p => isHigh p)
    let result := parts.1.take batch_size
    .ok (if result.length < batch_size then
          result ++ parts.2.take (batch_size - result.length)
        else result)

instance {ε α : Type} [DecidableEq ε] [DecidableEq α] : DecidableEq (Except ε α) := fun a b =>
  match a, b with
  | .error e, .error e' =>
    if h : e = e' then isTrue (by rw [h]) else isFalse (fun hh => by cases hh; exact h rfl)
  | .error _, .ok _ => isFalse (fun hh => by cases hh)
  | .ok _, .error _ => isFalse (fun hh => by cases hh)
  | .ok x, .ok y =>
    if h : x = y then isTrue (by rw [h]) else isFalse (fun hh => by cases hh; exact h rfl)

/-- Update the first element satisfying `p` (SQLAlchemy `.first()` followed
by attribute mutation); returns the new list and whether a match was found. -/
def updateFirst (p : α → Bool) (f : α → α) : List α → List α × Bool
  | [] => ([], false)
  | x :: xs =>
    if p x then (f x :: xs, true)
    else
      let r := updateFirst p f xs
      (x :: r.1, r.2)

/-- Key match used by the single-row queue lookups. -/
def keyMatch (pid : Nat) (name : String) (e : QueueEntry) : Bool :=
  e.product_id == pid && e.supermarket_name == name

/-- The row mutation of `update_scan_status`: stamp `last_scanned`, bump
`scan_count`, stamp `updated_at`; then clear the error state on success or
bump `error_count`, store the message and bump `scan_priority` on failure. -/
def statusUpd (clock : Nat → Nat) (tick : Nat) (success : Bool)
    (msg : Option String) (e : QueueEntry) : QueueEntry :=
  let e := { e with last_scanned := some (clock tick),
                    scan_count := e.scan_count + 1,
                    updated_at := clock (tick + 1) }
  if success then
    { e with error_count := 0, last_error := none }
  else
    { e with error_count := e.error_count + 1,
             last_error := msg,
             scan_priority := e.scan_priority + 1 }

/-- `QueueRepository.update_scan_status`: apply `statusUpd` to the first
matching row. Returns the queue, the advanced tick, and the found Bool. -/
def update_scan_status (clock : Nat → Nat) (q : List QueueEntry) (tick : Nat)
    (pid : Nat) (name : String) (success : Bool) (msg : Option String) :
    List QueueEntry × Nat × Bool :=
  let r := updateFirst (keyMatch pid name) (statusUpd clock tick success msg) q
  if r.2 then (r.1, tick + 2, true) else (q, tick, false)

/-- `QueueRepository.upsert_product`: touch `updated_at` and raise
`scan_priority` to the max if the row exists, otherwise insert a fresh row. -/
def upsert_product (clock : Nat → Nat) (q : List QueueEntry) (tick : Nat)
    (pid : Nat) (name : String) (priority : Int) : List QueueEntry × Nat :=
  let r := updateFirst (keyMatch pid name)
    (fun e => { e with updated_at := clock tick,
                       scan_priority := max e.scan_priority priority }) q
  if r.2 then (r.1, tick + 1)
  else
    (q ++ [{ product_id := pid, supermarket_name := name,
             last_scanned := none, scan_priority := priority,
             scan_count := 0, last_error := none, error_count := 0,
             created_at := clock tick, updated_at := clock (tick + 1) }],
     tick + 2)

/-- `upsert_many` step 1-2: the one bulk query for existing rows
(`product_id IN product_ids AND supermarket_name == name`). -/
def umExistingPred (product_ids : List Nat) (name : String) (e : QueueEntry) : Bool :=
  decide (e.product_id ∈ product_ids) && e.supermarket_name == name

/-- `upsert_many` step 2: the lookup set of existing product ids. -/
def umExistingIds (q : List QueueEntry) (product_ids : List Nat) (name : String) : List Nat :=
  (q.filter (umExistingPred product_ids name)).map (fun e => e.product_id)

/-- `upsert_many` step 3: the ids that are not yet in the queue. -/
def umNewIds (q : List QueueEntry) (product_ids : List Nat) (name : String) : List Nat :=
  product_ids.filter (fun pid => decide (pid ∉ umExistingIds q product_ids name))

/-- `upsert_many` step 4: the bulk-inserted rows (`scan_priority := priority`,
fresh `created_at`/`updated_at` stamps, everything else at its column default). -/
def umNewRows (clock : Nat → Nat) (tick : Nat) (name : String) (priority : Int)
    (newIds : List Nat) : List QueueEntry :=
  ((List.range newIds.length).zip newIds).map
    (fun ip =>
      { product_id := ip.2, supermarket_name := name,
        last_scanned := none, scan_priority := priority,
        scan_count := 0, last_error := none, error_count := 0,
        created_at := clock (tick + 2 * ip.1),
        updated_at := clock (tick + 2 * ip.1 + 1) })

/-- `upsert_many` step 5: the bulk update applied to a row — raise
`scan_priority` and touch `updated_at` iff the row belongs to the id set and
its priority is strictly lower. -/
def umUpdRow (product_ids : List Nat) (name : String) (priority : Int)
    (t1 : Nat) (e : QueueEntry) : QueueEntry :=
  if e.supermarket_name == name && decide (e.product_id ∈ product_ids)
      && decide (e.scan_priority < priority)
  then { e with scan_priority := priority, updated_at := t1 }
  else e

/-- `QueueRepository.upsert_many`: one bulk read of the existing rows,
bulk insert of the missing ids, and a bulk update raising `scan_priority`
(and touching `updated_at`) on the existing rows whose priority is lower.
Returns the queue, the advanced tick, and the inserted count. -/
def upsert_many (clock : Nat → Nat) (q : List QueueEntry) (tick : Nat)
    (product_ids : List Nat) (name : String) (priority : Int) :
    List QueueEntry × Nat × Nat :=
  if product_ids.isEmpty then (q, tick, 0)
  else
    let newIds := umNewIds q product_ids name
    let tick1 := tick + 2 * newIds.length
    let q1 := q ++ umNewRows clock tick name priority newIds
    let q2 := q1.map (umUpdRow product_ids name priority (clock tick1))
    (q2, tick1 + 1, newIds.length)

/-! ### Price ledger model (`app/models.py` `ProductPriceHistory`,
`app/repositories/price_history_repository.py`,
`app/services/price_history_service.py`) -/

/-- The fields of the `products` row that the price-change logic reads. -/
structure Product where
  product_id : Nat
  supermarket_name : String
  product_price_amount : Option ℚ
  product_unit_price_amount : Option ℚ
deriving DecidableEq

/-- The scraper's `product_data` dict, restricted to the keys that the
price-history and queue code reads. -/
structure ProductData where
  product_id : Nat
  supermarket_name : String
  product_price_amount : Option ℚ
  product_unit_price_amount : Option ℚ
deriving DecidableEq

/-- A row of `product_price_history`. -/
structure PHRow where
  product_id : Nat
  supermarket_name : String
  product_price_amount : Option ℚ
  product_unit_price_amount : Option ℚ
  valid_from : Nat
  valid_to : Option Nat
  is_current : Bool
deriving DecidableEq

/-- `PriceHistoryService.has_price_changed`: `True` when there is no previous
product; otherwise compare `product_price_amount` then
`product_unit_price_amount` (SQL NULL = `none` is distinct from any number). -/
def has_price_changed (old : Option Product) (d : ProductData) : Bool :=
  match old with
  | none => true
  | some o =>
    if o.product_price_amount ≠ d.product_price_amount then true
    else if o.product_unit_price_amount ≠ d.product_unit_price_amount then true
    else false

/-- The filter of `close_previous_entry` / `get_current_price`:
`product_id == pid AND supermarket_name == name AND is_current == True`. -/
def closerPred (pid : Nat) (name : String) (r : PHRow) : Bool :=
  r.product_id == pid && r.supermarket_name == name && r.is_current

/-- The row update performed by `close_previous_entry`'s bulk `update`. -/
def closeRow (pid : Nat) (name : String) (t : Nat) (r : PHRow) : PHRow :=
  if closerPred pid name r then { r with is_current := false, valid_to := some t }
  else r

/-- `PriceHistoryRepository.close_previous_entry`: one `datetime.now` call
for the whole bulk update; returns rows, advanced tick and the row count. -/
def close_previous_entry (clock : Nat → Nat) (rows : List PHRow) (tick : Nat)
    (pid : Nat) (name : String) : List PHRow × Nat × Nat :=
  (rows.map (closeRow pid name (clock tick)), tick + 1,
   rows.countP (closerPred pid name))

/-- `PriceHistoryRepository.create_entry`: add the new row to the session. -/
def create_entry (rows : List PHRow) (row : PHRow) : List PHRow :=
  rows ++ [row]

/-- `PriceHistoryService.create_price_history_entry` (the spec's
`recordIfChanged` write path): when a previous product was passed, first
close the open row; then insert a new open row whose `valid_from` is a
fresh, second `datetime.now` reading. -/
def create_price_history_entry (clock : Nat → Nat) (rows : List PHRow)
    (tick : Nat) (d : ProductData) (oldExists : Bool) : List PHRow × Nat :=
  let s1 := if oldExists then
      let c := close_previous_entry clock rows tick d.product_id d.supermarket_name
      (c.1, c.2.1)
    else (rows, tick)
  (create_entry s1.1
    { product_id := d.product_id, supermarket_name := d.supermarket_name,
      product_price_amount := d.product_price_amount,
      product_unit_price_amount := d.product_unit_price_amount,
      valid_from := clock s1.2, valid_to := none, is_current := true },
   s1.2 + 1)

/-- One `recordIfChanged` call: the snapshot and whether the caller passed a
previous product (`old_product is not None`). -/
structure PriceCall where
  data : ProductData
  prevExists : Bool
deriving DecidableEq

/-- One ledger step: `create_price_history_entry` over (rows, tick). -/
def stepLedger (clock : Nat → Nat) (s : List PHRow × Nat) (c : PriceCall) :
    List PHRow × Nat :=
  create_price_history_entry clock s.1 s.2 c.data c.prevExists

/-- A sequence of `recordIfChanged` calls. -/
def runLedger (clock : Nat → Nat) (s : List PHRow × Nat)
    (calls : List PriceCall) : List PHRow × Nat :=
  calls.foldl (stepLedger clock) s

/-- Number of open (`is_current`) rows stored for a key. -/
def currentCount (rows : List PHRow) (pid : Nat) (name : String) : Nat :=
  rows.countP (closerPred pid name)

/-- Every closed row has `valid_to ≥ valid_from`. -/
def closedOK (rows : List PHRow) : Prop :=
  ∀ r ∈ rows, ∀ t, r.valid_to = some t → r.valid_from ≤ t

/-- The SCD2 ledger invariant: at most one open row per key, closed rows
have ordered validity bounds, and open rows were opened no later than the
state's clock. -/
def LedgerInv (clock : Nat → Nat) (s : List PHRow × Nat) : Prop :=
  (∀ pid name, currentCount s.1 pid name ≤ 1) ∧ closedOK s.1 ∧
  (∀ r ∈ s.1, r.is_current = true → r.valid_from ≤ clock s.2)

/-- A call sequence is well-formed when each call passes a previous product
whenever an open row for its key exists at that point. -/
def WFCalls (clock : Nat → Nat) : List PHRow × Nat → List PriceCall → Bool
  | _, [] => true
  | s, c :: cs =>
    (decide (currentCount s.1 c.data.product_id c.data.supermarket_name = 0)
      || c.prevExists) && WFCalls clock (stepLedger clock s c) cs

/-! ### Scraper pacing model (`app/scrapers/base.py`
`BaseScraper.process_products_batch`) and orchestrator model
(`app/services/scraping_service.py`). -/

/-- Observable scraper-facing events: a `gather` of a concurrent chunk of
fetch tasks, an `asyncio.sleep`, or a single sequentially awaited fetch. -/
inductive ScrEvent where
  | gather : List Nat → ScrEvent
  | doSleep : ℚ → ScrEvent
  | fetchOne : Nat → ScrEvent
deriving DecidableEq

def isSleepEv : ScrEvent → Bool
  | .doSleep _ => true
  | _ => false

/-- The chunking loop of `process_products_batch`:
`for i in range(0, len(tasks), C)` — gather `tasks[i:i+C]`, and sleep
`pause` seconds unless this was the last chunk (`i + C < len(tasks)`).
`fuel` bounds the recursion; callers pass `tasks.length`, which suffices
whenever `0 < C`. -/
def batchChunksLoopAux (fuel : Nat) (C : Nat) (pause : ℚ)
    (tasks : List Nat) : List ScrEvent :=
  match fuel, tasks with
  | 0, _ => []
  | _ + 1, [] => []
  | fuel + 1, t :: ts =>
    ScrEvent.gather ((t :: ts).take C) ::
      (if C < (t :: ts).length then
        ScrEvent.doSleep pause :: batchChunksLoopAux fuel C pause ((t :: ts).drop C)
      else [])

/-- The fetch/sleep schedule of `BaseScraper.process_products_batch`: on a
nonempty id list, `delay = durationMin * 60 / N` and the loop sleeps
`delay * C` between concurrency-sized chunks. -/
def processProductsBatchSchedule (ids : List Nat) (durationMin : Nat)
    (C : Nat) : List ScrEvent :=
  if ids.isEmpty then []
  else
    batchChunksLoopAux ids.length C
      (((durationMin * 60 : ℚ) / ids.length) * C) ids

/-- Division of a list into consecutive chunks of size `C` (the claim's
"concurrency-sized chunks"); `fuel` as above. -/
def chunksOfAux (fuel : Nat) (C : Nat) (l : List Nat) : List (List Nat) :=
  match fuel, l with
  | 0, _ => []
  | _ + 1, [] => []
  | fuel + 1, t :: ts => ((t :: ts).take C) :: chunksOfAux fuel C ((t :: ts).drop C)

def chunksOf (C : Nat) (l : List Nat) : List (List Nat) :=
  chunksOfAux l.length C l

/-- The schedule the claim describes: the chunks in order, with a sleep of
`(durationMin * 60 / N) * C` between consecutive chunks and none inside a
chunk or after the last. -/
def claimedPacedSchedule (ids : List Nat) (durationMin : Nat) (C : Nat) :
    List ScrEvent :=
  List.intersperse (ScrEvent.doSleep (((durationMin * 60 : ℚ) / ids.length) * C))
    ((chunksOf C ids).map ScrEvent.gather)

/-- `ProductRepository.get_by_id`: first row matching the composite key. -/
def productGetById (ps : List Product) (pid : Nat) (name : String) :
    Option Product :=
  ps.find? (fun p => p.product_id == pid && p.supermarket_name == name)

/-- `ProductRepository.upsert` restricted to the modelled columns: update
the price fields of the existing row (plus a `last_updated` stamp, one
clock tick) or insert a new row. -/
def productUpsert (clock : Nat → Nat) (ps : List Product) (tick : Nat)
    (d : ProductData) : List Product × Nat :=
  let r := updateFirst
    (fun p => p.product_id == d.product_id &&
      p.supermarket_name == d.supermarket_name)
    (fun p => { p with product_price_amount := d.product_price_amount,
                       product_unit_price_amount := d.product_unit_price_amount }) ps
  if r.2 then (r.1, tick + 1)
  else (ps ++ [{ product_id := d.product_id,
                 supermarket_name := d.supermarket_name,
                 product_price_amount := d.product_price_amount,
                 product_unit_price_amount := d.product_unit_price_amount }], tick)

/-- The three tables the orchestrator coordinates. -/
structure DB where
  products : List Product
  queue : List QueueEntry
  ledger : List PHRow
deriving DecidableEq

/-- A SQLAlchemy session: the last committed database state, the current
(uncommitted) state, and the clock tick. -/
structure DbSession where
  committed : DB
  current : DB
  tick : Nat
deriving DecidableEq

def commitS (s : DbSession) : DbSession := { s with committed := s.current }

def rollbackS (s : DbSession) : DbSession := { s with current := s.committed }

/-- Outcome of `scraper.fetch_product_details(pid)`: a snapshot, a `None`
("not found"), or a raised exception with its message. -/
inductive FetchOutcome where
  | found : ProductData → FetchOutcome
  | notFound : FetchOutcome
  | raised : String → FetchOutcome
deriving DecidableEq

/-- `True` when the fetch outcome lands in the `error_count += 1` paths of
`process_batch` (a `None` result or a raised exception). -/
def isFail : FetchOutcome → Bool
  | .found _ => false
  | .notFound => true
  | .raised _ => true

/-- The result dict of `ScrapingService.process_batch`. -/
structure BatchResult where
  success : Bool
  message : String
  products_processed : Nat
  products_updated : Nat
  errors : Nat
deriving DecidableEq

/-- The result dict of `ScrapingService.process_product`. -/
structure SingleResult where
  success : Bool
  message : String
  product_id : Nat
deriving DecidableEq

/-- The registered scrapers dictionary. -/
def scrapersKnown (name : String) : Bool :=
  name == "bonpreu" || name == "mercadona"

/-- The body of the `for product_id in pbar` loop of `process_batch`: fetch;
on a snapshot, run change detection, price-history versioning, product
upsert and a success outcome; on `None` or an exception, count an error and
record a failure outcome. State: (session, updated_count, error_count). -/
def processOneItem (clock : Nat → Nat) (fetch : Nat → FetchOutcome)
    (name : String) (st : DbSession × Nat × Nat) (pid : Nat) :
    DbSession × Nat × Nat :=
  match fetch pid with
  | .raised msg =>
    let r := update_scan_status clock st.1.current.queue st.1.tick pid name
      false (some msg)
    ({ st.1 with current := { st.1.current with queue := r.1 }, tick := r.2.1 },
     st.2.1, st.2.2 + 1)
  | .notFound =>
    let r := update_scan_status clock st.1.current.queue st.1.tick pid name
      false (some "Product not found")
    ({ st.1 with current := { st.1.current with queue := r.1 }, tick := r.2.1 },
     st.2.1, st.2.2 + 1)
  | .found d =>
    let existing := productGetById st.1.current.products pid name
    let changed := has_price_changed existing d
    let s1 := if changed then
        let ph := create_price_history_entry clock st.1.current.ledger
          st.1.tick d existing.isSome
        { st.1 with current := { st.1.current with ledger := ph.1 }, tick := ph.2 }
      else st.1
    let pu := productUpsert clock s1.current.products s1.tick d
    let s2 := { s1 with current := { s1.current with products := pu.1 }, tick := pu.2 }
    let r := update_scan_status clock s2.current.queue s2.tick pid name true none
    ({ s2 with current := { s2.current with queue := r.1 }, tick := r.2.1 },
     st.2.1 + 1, st.2.2)

/-- `QueueRepository.update_scan_results`: stamp `last_scanned`, bump
`scan_count` and stamp `updated_at` on every fetched row (two clock reads
per row). -/
def resultsUpd (clock : Nat → Nat) (tick : Nat) (e : QueueEntry) : QueueEntry :=
  { e with last_scanned := some (clock tick),
           scan_count := e.scan_count + 1,
           updated_at := clock (tick + 1) }

def update_scan_results (clock : Nat → Nat) (q : List QueueEntry) (tick : Nat)
    (products : List QueueEntry) : List QueueEntry × Nat :=
  products.foldl
    (fun st p =>
      ((updateFirst (keyMatch p.product_id p.supermarket_name)
        (resultsUpd clock st.2) st.1).1,
       st.2 + 2)) (q, tick)

/-- The nonempty-batch body of `process_batch`: the sequential per-item
loop, the aggregate `update_scan_results` stamp, then one commit — or, when
the commit raises (`commitFails`), the top-level `except` path: rollback
and a zero-count failure result. -/
def process_batch_run (clock : Nat → Nat) (fetch : Nat → FetchOutcome)
    (commitFails : Option String) (name : String) (s : DbSession)
    (products_to_scan : List QueueEntry) :
    BatchResult × DbSession × List ScrEvent :=
  let product_ids := products_to_scan.map (fun p => p.product_id)
  let st := product_ids.foldl (processOneItem clock fetch name) (s, 0, 0)
  let rr := update_scan_results clock st.1.current.queue st.1.tick
    products_to_scan
  let s2 :=
    { st.1 with
        current := { st.1.current with queue := rr.1 },
        tick := rr.2 }
  let trace := product_ids.map ScrEvent.fetchOne
  match commitFails with
  | some msg =>
    ({ success := false, message := msg, products_processed := 0,
       products_updated := 0, errors := 0 }, rollbackS s2, trace)
  | none =>
    ({ success := true, message := "Batch processing completed",
       products_processed := product_ids.length,
       products_updated := st.2.1, errors := st.2.2 },
      commitS s2, trace)

/-- `process_batch` after a successful batch read: trivial success on an
empty id list, otherwise `process_batch_run`. -/
def process_batch_inner (clock : Nat → Nat) (fetch : Nat → FetchOutcome)
    (commitFails : Option String) (name : String) (s : DbSession)
    (products_to_scan : List QueueEntry) :
    BatchResult × DbSession × List ScrEvent :=
  if (products_to_scan.map (fun p => p.product_id)).isEmpty then
    ({ success := true, message := "No products to scan",
       products_processed := 0, products_updated := 0, errors := 0 }, s, [])
  else process_batch_run clock fetch commitFails name s products_to_scan

/-- `ScrapingService.process_batch`: unknown supermarkets raise before the
`try` block; inside it, the batch is read, every item is fetched strictly
sequentially (the returned trace records one `fetchOne` per id and no
sleeps), aggregate scan results are stamped, and a single commit ends the
batch; a failing commit is caught by the top-level `except`, which rolls
back and reports failure with zero counts (as does a `ValueError` raised
by the batch read). -/
def process_batch (clock : Nat → Nat) (fetch : Nat → FetchOutcome)
    (commitFails : Option String) (name : String) (s : DbSession) :
    Except String (BatchResult × DbSession × List ScrEvent) :=
  if ¬ scrapersKnown name then .error ("Unknown supermarket: " ++ name)
  else
    match get_next_batch s.current.queue name 1000 with
    | .error e =>
      .ok ({ success := false, message := e, products_processed := 0,
             products_updated := 0, errors := 0 }, rollbackS s, [])
    | .ok products_to_scan =>
      .ok (process_batch_inner clock fetch commitFails name s products_to_scan)

/-- `ScrapingService.process_product`: fetch one id; `None` returns a
failure dict without touching the session; a snapshot runs the same
version-upsert-outcome flow and commits; any exception is caught by the
`except` block, which FIRST records a failure outcome on the queue entry
and THEN rolls the session back. -/
def process_product (clock : Nat → Nat) (fetch : Nat → FetchOutcome)
    (commitFails : Option String) (name : String) (pid : Nat) (s : DbSession) :
    Except String (SingleResult × DbSession) :=
  if ¬ scrapersKnown name then .error ("Unknown supermarket: " ++ name)
  else
    match fetch pid with
    | .raised msg =>
      let r := update_scan_status clock s.current.queue s.tick pid name
        false (some msg)
      let s1 := { s with current := { s.current with queue := r.1 }, tick := r.2.1 }
      .ok ({ success := false, message := msg, product_id := pid }, rollbackS s1)
    | .notFound =>
      .ok ({ success := false, message := "Product not found", product_id := pid }, s)
    | .found d =>
      let existing := productGetById s.current.products pid name
      let changed := has_price_changed existing d
      let s1 := if changed then
          let ph := create_price_history_entry clock s.current.ledger s.tick d
            existing.isSome
          { s with current := { s.current with ledger := ph.1 }, tick := ph.2 }
        else s
      let pu := productUpsert clock s1.current.products s1.tick d
      let s2 :=
        { s1 with
            current := { s1.current with products := pu.1 },
            tick := pu.2 }
      let r := update_scan_status clock s2.current.queue s2.tick pid name true none
      let s3 := { s2 with current := { s2.current with queue := r.1 }, tick := r.2.1 }
      match commitFails with
      | some msg =>
        let r2 := update_scan_status clock s3.current.queue s3.tick pid name
          false (some msg)
        let s4 :=
          { s3 with
              current := { s3.current with queue := r2.1 },
              tick := r2.2.1 }
        .ok ({ success := false, message := msg, product_id := pid }, rollbackS s4)
      | none =>
        .ok ({ success := true, message := "Product updated successfully",
               product_id := pid }, commitS s3)

/-- All fields of a `QueueEntry` other than `scan_priority` and `updated_at`
agree (the frame of the two upsert operations). -/
def frameEq (a b : QueueEntry) : Prop :=
  a.product_id = b.product_id ∧ a.supermarket_name = b.supermarket_name ∧
  a.last_scanned = b.last_scanned ∧ a.scan_count = b.scan_count ∧
  a.error_count = b.error_count ∧ a.last_error = b.last_error ∧
  a.created_at = b.created_at

/-- `scan_priority` is touched only when the offered priority is strictly
greater, and then it becomes exactly that priority (`a` after, `b` before). -/
def prioRule (p : Int) (a b : QueueEntry) : Prop :=
  a.scan_priority ≠ b.scan_priority → b.scan_priority < p ∧ a.scan_priority = p

/-! ### Helper lemmas on `updateFirst` and pointwise list facts -/

theorem updateFirst_of_forall_neg {α : Type} {p : α → Bool} {f : α → α} :
    ∀ {l : List α}, (∀ x ∈ l, p x = false) → updateFirst p f l = (l, false)
  | [], _ => rfl
  | x :: xs, h => by
    have hx : p x = false := h x (by simp)
    simp only [updateFirst, hx, Bool.false_eq_true, if_false]
    have := updateFirst_of_forall_neg (p := p) (f := f) (l := xs)
      (fun y hy => h y (by simp [hy]))
    simp [this]

theorem updateFirst_append_pos {α : Type} {p : α → Bool} {f : α → α} {x : α}
    (hx : p x = true) :
    ∀ (l1 l2 : List α), (∀ y ∈ l1, p y = false) →
      updateFirst p f (l1 ++ x :: l2) = (l1 ++ f x :: l2, true)
  | [], l2, _ => by simp [updateFirst, hx]
  | y :: t, l2, h => by
    have hy : p y = false := h y (by simp)
    have ih := updateFirst_append_pos (f := f) hx t l2 (fun z hz => h z (by simp [hz]))
    simp only [List.cons_append, updateFirst, hy, Bool.false_eq_true, if_false]
    simp only [List.append_eq]
    rw [ih]

theorem pointwise_zones {α : Type} (P : α → α → Prop) (hrefl : ∀ a, P a a)
    {x x' : α} (hx : P x' x) :
    ∀ (l1 l2 : List α) (i : Nat) (h : i < (l1 ++ x :: l2).length)
      (h' : i < (l1 ++ x' :: l2).length),
      P ((l1 ++ x' :: l2).get ⟨i, h'⟩) ((l1 ++ x :: l2).get ⟨i, h⟩)
  | [], _, 0, _, _ => hx
  | [], _, i + 1, _, _ => hrefl _
  | a :: t, l2, 0, _, _ => hrefl a
  | a :: t, l2, i + 1, h, h' =>
    pointwise_zones P hrefl hx t l2 i (by simpa using h) (by simpa using h')

theorem pointwise_map {α : Type} (P : α → α → Prop) (g : α → α)
    (hg : ∀ a, P (g a) a) (l : List α) (i : Nat) (h : i < l.length)
    (h' : i < (l.map g).length) :
    P ((l.map g).get ⟨i, h'⟩) (l.get ⟨i, h⟩) := by
  have : (l.map g).get ⟨i, h'⟩ = g (l.get ⟨i, h⟩) := by
    simp [List.get_eq_getElem, List.getElem_map]
  rw [this]; exact hg _

/-- C6. `recordOutcome` (`QueueRepository.update_scan_status`): for a queue
entry present in the store (split as `q1 ++ e :: q2` with the first
`(pid, name)` match at `e`), a failure call increments `scan_count`,
`error_count` and `scan_priority` by exactly 1, stamps `last_scanned`,
stores the error message and returns `true`; a success call increments
`scan_count`, stamps `last_scanned`, resets `error_count` to 0 and
`last_error` to `none` regardless of prior values, leaves `scan_priority`
unchanged, and returns `true`; when no matching entry exists the call
returns `false` and changes nothing. -/
theorem C6_recordOutcome (clock : Nat → Nat) (pid : Nat) (name : String) :
    (∀ (q1 : List QueueEntry) (e : QueueEntry) (q2 : List QueueEntry)
        (tick : Nat) (msg : Option String),
        (∀ y ∈ q1, keyMatch pid name y = false) → keyMatch pid name e = true →
        update_scan_status clock (q1 ++ e :: q2) tick pid name false msg =
          (q1 ++ { e with last_scanned := some (clock tick),
                          scan_count := e.scan_count + 1,
                          updated_at := clock (tick + 1),
                          error_count := e.error_count + 1,
                          last_error := msg,
                          scan_priority := e.scan_priority + 1 } :: q2,
           tick + 2, true) ∧
        update_scan_status clock (q1 ++ e :: q2) tick pid name true msg =
          (q1 ++ { e with last_scanned := some (clock tick),
                          scan_count := e.scan_count + 1,
                          updated_at := clock (tick + 1),
                          error_count := 0,
                          last_error := none } :: q2,
           tick + 2, true)) ∧
    (∀ (q : List QueueEntry) (tick : Nat) (success : Bool) (msg : Option String),
        (∀ y ∈ q, keyMatch pid name y = false) →
        update_scan_status clock q tick pid name success msg = (q, tick, false)) := by
  constructor
  · intro q1 e q2 tick msg h1 he
    constructor
    · unfold update_scan_status
      rw [updateFirst_append_pos (f := _) he q1 q2 h1]
      simp [statusUpd]
    · unfold update_scan_status
      rw [updateFirst_append_pos (f := _) he q1 q2 h1]
      simp [statusUpd]
  · intro q tick success msg h
    unfold update_scan_status
    rw [updateFirst_of_forall_neg h]
    simp

/-- Witness for C6 at a concrete one-entry queue and a failing outcome. -/
theorem C6_recordOutcome_witness :
    update_scan_status id [⟨5, "m", none, 0, 0, none, 0, 0, 0⟩] 0 5 "m" false (some "boom") =
      ([⟨5, "m", some 0, 1, 1, some "boom", 1, 0, 1⟩], 2, true) :=
  ((C6_recordOutcome id 5 "m").1 [] ⟨5, "m", none, 0, 0, none, 0, 0, 0⟩ [] 0
    (some "boom") (by simp) (by decide)).1

theorem get_congr {α : Type} {l l' : List α} (hl : l = l') (i : Nat)
    (h : i < l.length) (h' : i < l'.length) : l.get ⟨i, h⟩ = l'.get ⟨i, h'⟩ := by
  subst hl; rfl

theorem umUpdRow_frame (ids : List Nat) (name : String) (p : Int) (t : Nat)
    (a : QueueEntry) :
    frameEq (umUpdRow ids name p t a) a ∧ prioRule p (umUpdRow ids name p t a) a := by
  by_cases hc : (a.supermarket_name == name && decide (a.product_id ∈ ids)
      && decide (a.scan_priority < p)) = true
  · have hlt : a.scan_priority < p := by
      simp only [Bool.and_eq_true, decide_eq_true_eq] at hc
      exact hc.2
    simp only [umUpdRow, hc, if_true]
    exact ⟨⟨rfl, rfl, rfl, rfl, rfl, rfl, rfl⟩, fun _ => ⟨hlt, rfl⟩⟩
  · simp only [umUpdRow, if_neg hc]
    exact ⟨⟨rfl, rfl, rfl, rfl, rfl, rfl, rfl⟩, fun hne => absurd rfl hne⟩

/-- The queue produced by `upsert_many` on a nonempty id list. -/
theorem upsert_many_queue_eq (clock : Nat → Nat) (q : List QueueEntry) (tick : Nat)
    (ids : List Nat) (name : String) (p : Int) (hne : ids.isEmpty = false) :
    (upsert_many clock q tick ids name p).1 =
      (q ++ umNewRows clock tick name p (umNewIds q ids name)).map
        (umUpdRow ids name p
          (clock (tick + 2 * (umNewIds q ids name).length))) := by
  simp [upsert_many, hne]

/-- C10. Frame effect of the two queue upserts: for every pre-existing row,
`upsert_many` and `upsert_product` modify only `scan_priority` and
`updated_at` (`frameEq` lists all other fields), and `scan_priority` itself
changes only when the offered priority is strictly greater than the
existing one, in which case it becomes that priority (`prioRule`). -/
theorem C10_upsert_frame_effect (clock : Nat → Nat) (tick : Nat)
    (name : String) (p : Int) :
    (∀ (q : List QueueEntry) (ids : List Nat) (i : Nat) (h : i < q.length)
        (h' : i < (upsert_many clock q tick ids name p).1.length),
        frameEq ((upsert_many clock q tick ids name p).1.get ⟨i, h'⟩) (q.get ⟨i, h⟩) ∧
        prioRule p ((upsert_many clock q tick ids name p).1.get ⟨i, h'⟩) (q.get ⟨i, h⟩)) ∧
    (∀ (pid : Nat) (q1 : List QueueEntry) (e : QueueEntry) (q2 : List QueueEntry),
        (∀ y ∈ q1, keyMatch pid name y = false) → keyMatch pid name e = true →
        (upsert_product clock (q1 ++ e :: q2) tick pid name p).1 =
          q1 ++ { e with updated_at := clock tick,
                         scan_priority := max e.scan_priority p } :: q2 ∧
        ∀ (i : Nat) (h : i < (q1 ++ e :: q2).length)
          (h' : i < (upsert_product clock (q1 ++ e :: q2) tick pid name p).1.length),
          frameEq ((upsert_product clock (q1 ++ e :: q2) tick pid name p).1.get ⟨i, h'⟩)
            ((q1 ++ e :: q2).get ⟨i, h⟩) ∧
          prioRule p ((upsert_product clock (q1 ++ e :: q2) tick pid name p).1.get ⟨i, h'⟩)
            ((q1 ++ e :: q2).get ⟨i, h⟩)) := by
  constructor
  · intro q ids i h h'
    by_cases hids : ids.isEmpty
    · have hq : (upsert_many clock q tick ids name p).1 = q := by
        simp [upsert_many, hids]
      rw [get_congr hq i h' h]
      exact ⟨⟨rfl, rfl, rfl, rfl, rfl, rfl, rfl⟩, fun hne => absurd rfl hne⟩
    · have hq := upsert_many_queue_eq clock q tick ids name p
        (Bool.not_eq_true _ ▸ hids)
      have h2 : i < ((q ++ umNewRows clock tick name p (umNewIds q ids name)).map
          (umUpdRow ids name p
            (clock (tick + 2 * (umNewIds q ids name).length)))).length := by
        simp; omega
      rw [get_congr hq i h' h2]
      have h3 : i < (q ++ umNewRows clock tick name p (umNewIds q ids name)).length := by
        simp; omega
      have hget : ((q ++ umNewRows clock tick name p (umNewIds q ids name)).map
          (umUpdRow ids name p
            (clock (tick + 2 * (umNewIds q ids name).length)))).get ⟨i, h2⟩ =
          umUpdRow ids name p (clock (tick + 2 * (umNewIds q ids name).length))
            (q.get ⟨i, h⟩) := by
        simp only [List.get_eq_getElem, List.getElem_map]
        rw [List.getElem_append_left h]
      rw [hget]
      exact umUpdRow_frame _ _ _ _ _
  · intro pid q1 e q2 h1 he
    have heq : (upsert_product clock (q1 ++ e :: q2) tick pid name p).1 =
        q1 ++ { e with updated_at := clock tick,
                       scan_priority := max e.scan_priority p } :: q2 := by
      unfold upsert_product
      rw [updateFirst_append_pos (f := _) he q1 q2 h1]
      simp
    refine ⟨heq, ?_⟩
    intro i h h'
    have h2 : i < (q1 ++
        { e with updated_at := clock tick,
                 scan_priority := max e.scan_priority p } :: q2).length := by
      simp at h ⊢; omega
    rw [get_congr heq i h' h2]
    refine pointwise_zones (fun a b => frameEq a b ∧ prioRule p a b)
      (fun a => ⟨⟨rfl, rfl, rfl, rfl, rfl, rfl, rfl⟩, fun hne => absurd rfl hne⟩)
      ?_ q1 q2 i h h2
    refine ⟨⟨rfl, rfl, rfl, rfl, rfl, rfl, rfl⟩, ?_⟩
    intro hne
    rcases le_or_lt p e.scan_priority with hle | hlt
    · exact absurd (max_eq_left hle) hne
    · exact ⟨hlt, max_eq_right (le_of_lt hlt)⟩

/-- Witness for C10: one existing row, a strictly greater priority offered
through `upsert_many`; only `scan_priority` and `updated_at` move. -/
theorem C10_upsert_frame_effect_witness :
    frameEq ((upsert_many id [⟨5, "m", some 3, 1, 2, some "e", 1, 0, 0⟩] 0 [5] "m" 4).1.get
        ⟨0, by decide⟩) ⟨5, "m", some 3, 1, 2, some "e", 1, 0, 0⟩ ∧
    prioRule 4 ((upsert_many id [⟨5, "m", some 3, 1, 2, some "e", 1, 0, 0⟩] 0 [5] "m" 4).1.get
        ⟨0, by decide⟩) ⟨5, "m", some 3, 1, 2, some "e", 1, 0, 0⟩ :=
  (C10_upsert_frame_effect id 0 "m" 4).1 [⟨5, "m", some 3, 1, 2, some "e", 1, 0, 0⟩]
    [5] 0 (by decide) (by decide)

theorem mem_umExistingIds {q : List QueueEntry} {ids : List Nat} {name : String}
    {pid : Nat} :
    pid ∈ umExistingIds q ids name ↔
      ∃ e ∈ q, e.product_id = pid ∧ e.supermarket_name = name ∧ pid ∈ ids := by
  unfold umExistingIds umExistingPred
  simp only [List.mem_map, List.mem_filter, Bool.and_eq_true, decide_eq_true_eq,
    beq_iff_eq]
  constructor
  · rintro ⟨e, ⟨he, hmem, hn⟩, hp⟩
    exact ⟨e, he, hp, hn, hp ▸ hmem⟩
  · rintro ⟨e, he, hp, hn, hmem⟩
    exact ⟨e, ⟨he, hp ▸ hmem, hn⟩, hp⟩

theorem upsert_many_get_orig (clock : Nat → Nat) (q : List QueueEntry) (tick : Nat)
    (ids : List Nat) (name : String) (p : Int) (hne : ids.isEmpty = false)
    (i : Nat) (h : i < q.length)
    (h' : i < (upsert_many clock q tick ids name p).1.length) :
    (upsert_many clock q tick ids name p).1.get ⟨i, h'⟩ =
      umUpdRow ids name p (clock (tick + 2 * (umNewIds q ids name).length))
        (q.get ⟨i, h⟩) := by
  have hq := upsert_many_queue_eq clock q tick ids name p hne
  have h2 : i < ((q ++ umNewRows clock tick name p (umNewIds q ids name)).map
      (umUpdRow ids name p (clock (tick + 2 * (umNewIds q ids name).length)))).length := by
    simp; omega
  rw [get_congr hq i h' h2]
  simp only [List.get_eq_getElem, List.getElem_map]
  rw [List.getElem_append_left h]

theorem umNewRows_key (clock : Nat → Nat) (tick : Nat) (name : String) (p : Int)
    {newIds : List Nat} {pid : Nat} (hpid : pid ∈ newIds) :
    ∃ r ∈ umNewRows clock tick name p newIds,
      r.product_id = pid ∧ r.supermarket_name = name ∧ r.scan_priority = p := by
  rcases List.mem_iff_getElem.mp hpid with ⟨j, hj, hget⟩
  have hz : j < ((List.range newIds.length).zip newIds).length := by
    simp [hj]
  refine ⟨_, List.mem_map_of_mem _ (List.getElem_mem hz), ?_⟩
  simp [List.getElem_zip, hget]

/-- After `upsert_many`, every id of the input set has a row with its key
whose priority is at least the offered one. -/
theorem upsert_many_covers (clock : Nat → Nat) (q : List QueueEntry) (tick : Nat)
    (ids : List Nat) (name : String) (p : Int) {pid : Nat} (hpid : pid ∈ ids) :
    ∃ e ∈ (upsert_many clock q tick ids name p).1,
      e.product_id = pid ∧ e.supermarket_name = name ∧ p ≤ e.scan_priority := by
  have hne : ids.isEmpty = false := by
    cases ids with
    | nil => cases hpid
    | cons a t => rfl
  rw [upsert_many_queue_eq clock q tick ids name p hne]
  by_cases hex : ∃ e ∈ q, e.product_id = pid ∧ e.supermarket_name = name
  · rcases hex with ⟨e, he, hp, hn⟩
    refine ⟨umUpdRow ids name p (clock (tick + 2 * (umNewIds q ids name).length)) e,
      List.mem_map_of_mem _ (List.mem_append_left _ he), ?_⟩
    by_cases hc : (e.supermarket_name == name && decide (e.product_id ∈ ids)
        && decide (e.scan_priority < p)) = true
    · simp only [umUpdRow, hc, if_true]
      exact ⟨hp, hn, le_refl p⟩
    · simp only [umUpdRow, if_neg hc]
      refine ⟨hp, hn, ?_⟩
      have hm' : e.product_id ∈ ids := by rw [hp]; exact hpid
      simp only [Bool.and_eq_true, decide_eq_true_eq, beq_iff_eq, not_and] at hc
      exact not_lt.mp (hc ⟨hn, hm'⟩)
  · have hnotex : pid ∉ umExistingIds q ids name := by
      intro hmem
      rcases mem_umExistingIds.mp hmem with ⟨e, he, hp, hn, _⟩
      exact hex ⟨e, he, hp, hn⟩
    have hnew : pid ∈ umNewIds q ids name := by
      unfold umNewIds
      simp only [List.mem_filter, decide_eq_true_eq]
      exact ⟨hpid, hnotex⟩
    rcases umNewRows_key clock tick name p hnew with ⟨r, hr, hrp, hrn, hrprio⟩
    refine ⟨umUpdRow ids name p (clock (tick + 2 * (umNewIds q ids name).length)) r,
      List.mem_map_of_mem _ (List.mem_append_right _ hr), ?_⟩
    have hc : (r.supermarket_name == name && decide (r.product_id ∈ ids)
        && decide (r.scan_priority < p)) = false := by
      simp [hrprio]
    simp only [umUpdRow, hc, Bool.false_eq_true, if_false]
    exact ⟨hrp, hrn, hrprio.ge⟩

/-- After `upsert_many`, no row of the id set keeps a priority below the
offered one. -/
theorem upsert_many_no_low (clock : Nat → Nat) (q : List QueueEntry) (tick : Nat)
    (ids : List Nat) (name : String) (p : Int) :
    ∀ e ∈ (upsert_many clock q tick ids name p).1,
      e.supermarket_name = name → e.product_id ∈ ids → p ≤ e.scan_priority := by
  intro e he hn hm
  by_cases hids : ids.isEmpty
  · rw [List.isEmpty_iff.mp hids] at hm
    cases hm
  · rw [upsert_many_queue_eq clock q tick ids name p (Bool.not_eq_true _ ▸ hids)] at he
    rcases List.mem_map.mp he with ⟨x, _, hxe⟩
    by_cases hc : (x.supermarket_name == name && decide (x.product_id ∈ ids)
        && decide (x.scan_priority < p)) = true
    · rw [← hxe]
      simp only [umUpdRow, hc, if_true]
      exact le_refl p
    · have hxe' : x = e := by rw [← hxe]; simp only [umUpdRow, if_neg hc]
      subst hxe'
      simp only [Bool.and_eq_true, decide_eq_true_eq, beq_iff_eq, not_and] at hc
      exact not_lt.mp (hc ⟨hn, hm⟩)

/-- C8. `upsertMany` is idempotent: a second call with the same id set and
priority leaves the queue exactly as after the first call and reports 0
inserted rows; and after any call each pre-existing row's `scan_priority`
is the max of its previous value and the offered priority (in particular it
never decreases). -/
theorem C8_upsertMany_idempotent (clock clock2 : Nat → Nat) (tick tick2 : Nat)
    (name : String) (p : Int) (q : List QueueEntry) (ids : List Nat) :
    (upsert_many clock2 (upsert_many clock q tick ids name p).1 tick2 ids name p).1 =
      (upsert_many clock q tick ids name p).1 ∧
    (upsert_many clock2 (upsert_many clock q tick ids name p).1 tick2 ids name p).2.2 = 0 ∧
    (∀ (i : Nat) (h : i < q.length)
        (h' : i < (upsert_many clock q tick ids name p).1.length),
        ((upsert_many clock q tick ids name p).1.get ⟨i, h'⟩).scan_priority =
          (if (q.get ⟨i, h⟩).supermarket_name = name ∧ (q.get ⟨i, h⟩).product_id ∈ ids
           then max (q.get ⟨i, h⟩).scan_priority p
           else (q.get ⟨i, h⟩).scan_priority)) ∧
    (∀ (i : Nat) (h : i < q.length)
        (h' : i < (upsert_many clock q tick ids name p).1.length),
        (q.get ⟨i, h⟩).scan_priority ≤
          ((upsert_many clock q tick ids name p).1.get ⟨i, h'⟩).scan_priority) := by
  by_cases hids : ids.isEmpty
  · have hids' : ids = [] := List.isEmpty_iff.mp hids
    subst hids'
    refine ⟨by simp [upsert_many], by simp [upsert_many], ?_, ?_⟩
    · intro i h h'
      have hq : (upsert_many clock q tick [] name p).1 = q := by simp [upsert_many]
      rw [get_congr hq i h' h]
      simp
    · intro i h h'
      have hq : (upsert_many clock q tick [] name p).1 = q := by simp [upsert_many]
      rw [get_congr hq i h' h]
  · have hne : ids.isEmpty = false := Bool.not_eq_true _ ▸ hids
    have hcov : ∀ pid ∈ ids, pid ∈ umExistingIds (upsert_many clock q tick ids name p).1 ids name := by
      intro pid hpid
      rcases upsert_many_covers clock q tick ids name p hpid with ⟨e, he, hp, hn, _⟩
      exact mem_umExistingIds.mpr ⟨e, he, hp, hn, hpid⟩
    have hnew2 : umNewIds (upsert_many clock q tick ids name p).1 ids name = [] := by
      unfold umNewIds
      rw [List.filter_eq_nil_iff]
      intro pid hpid
      simp only [decide_eq_true_eq, not_not]
      exact hcov pid hpid
    have hupd2 : ∀ e ∈ (upsert_many clock q tick ids name p).1,
        umUpdRow ids name p (clock2 (tick2 + 2 * (umNewIds (upsert_many clock q tick ids name p).1 ids name).length)) e = e := by
      intro e he
      unfold umUpdRow
      by_cases hc : (e.supermarket_name == name && decide (e.product_id ∈ ids)
          && decide (e.scan_priority < p)) = true
      · exfalso
        simp only [Bool.and_eq_true, decide_eq_true_eq, beq_iff_eq] at hc
        exact absurd hc.2 (not_lt.mpr (upsert_many_no_low clock q tick ids name p e he hc.1.1 hc.1.2))
      · simp only [if_neg hc]
    refine ⟨?_, ?_, ?_, ?_⟩
    · rw [upsert_many_queue_eq clock2 _ tick2 ids name p hne, hnew2]
      have : umNewRows clock2 tick2 name p ([] : List Nat) = [] := rfl
      rw [this, List.append_nil]
      rw [hnew2] at hupd2
      calc ((upsert_many clock q tick ids name p).1.map
              (umUpdRow ids name p (clock2 (tick2 + 2 * ([] : List Nat).length))))
          = (upsert_many clock q tick ids name p).1.map id :=
            List.map_congr_left (fun e he => hupd2 e he)
        _ = (upsert_many clock q tick ids name p).1 := List.map_id _
    · have hg : ∀ (l : List QueueEntry), umNewIds l ids name = [] →
          (upsert_many clock2 l tick2 ids name p).2.2 = 0 := by
        intro l hl
        simp [upsert_many, hne, hl]
      exact hg _ hnew2
    · intro i h h'
      rw [upsert_many_get_orig clock q tick ids name p hne i h h']
      unfold umUpdRow
      by_cases hkey : (q.get ⟨i, h⟩).supermarket_name = name ∧ (q.get ⟨i, h⟩).product_id ∈ ids
      · rw [if_pos hkey]
        by_cases hlt : (q.get ⟨i, h⟩).scan_priority < p
        · have hc : ((q.get ⟨i, h⟩).supermarket_name == name
              && decide ((q.get ⟨i, h⟩).product_id ∈ ids)
              && decide ((q.get ⟨i, h⟩).scan_priority < p)) = true := by
            simp only [Bool.and_eq_true, decide_eq_true_eq, beq_iff_eq]
            exact ⟨⟨hkey.1, hkey.2⟩, hlt⟩
          rw [if_pos hc]
          exact (max_eq_right (le_of_lt hlt)).symm
        · have hc : ((q.get ⟨i, h⟩).supermarket_name == name
              && decide ((q.get ⟨i, h⟩).product_id ∈ ids)
              && decide ((q.get ⟨i, h⟩).scan_priority < p)) = false := by
            simp [hlt]
            intro _ _
            exact not_lt.mp hlt
          rw [hc]
          simp only [Bool.false_eq_true, if_false]
          exact (max_eq_left (not_lt.mp hlt)).symm
      · rw [if_neg hkey]
        have hc : ((q.get ⟨i, h⟩).supermarket_name == name
            && decide ((q.get ⟨i, h⟩).product_id ∈ ids)
            && decide ((q.get ⟨i, h⟩).scan_priority < p)) = false := by
          rcases not_and_or.mp hkey with hk | hk
          · simp [hk]
            intro h1
            exact absurd h1 hk
          · simp [hk]
            intro _ h2
            exact absurd h2 hk
        rw [hc]
        simp only [Bool.false_eq_true, if_false]
    · intro i h h'
      rw [upsert_many_get_orig clock q tick ids name p hne i h h']
      unfold umUpdRow
      by_cases hc : ((q.get ⟨i, h⟩).supermarket_name == name
          && decide ((q.get ⟨i, h⟩).product_id ∈ ids)
          && decide ((q.get ⟨i, h⟩).scan_priority < p)) = true
      · rw [if_pos hc]
        simp only [Bool.and_eq_true, decide_eq_true_eq] at hc
        exact le_of_lt hc.2
      · rw [if_neg hc]

/-- Witness for C8 at a concrete queue: id 5 exists with lower priority,
id 6 is new; the double call changes nothing over the single call. -/
theorem C8_upsertMany_idempotent_witness :
    (upsert_many id (upsert_many id [⟨5, "m", some 3, 1, 2, some "e", 1, 0, 0⟩] 0 [5, 6] "m" 4).1
        7 [5, 6] "m" 4).1 =
      (upsert_many id [⟨5, "m", some 3, 1, 2, some "e", 1, 0, 0⟩] 0 [5, 6] "m" 4).1 ∧
    (upsert_many id (upsert_many id [⟨5, "m", some 3, 1, 2, some "e", 1, 0, 0⟩] 0 [5, 6] "m" 4).1
        7 [5, 6] "m" 4).2.2 = 0 ∧
    ((upsert_many id [⟨5, "m", some 3, 1, 2, some "e", 1, 0, 0⟩] 0 [5, 6] "m" 4).1.get
        ⟨0, by decide⟩).scan_priority = 4 :=
  ⟨(C8_upsertMany_idempotent id id 0 7 "m" 4 [⟨5, "m", some 3, 1, 2, some "e", 1, 0, 0⟩] [5, 6]).1,
   (C8_upsertMany_idempotent id id 0 7 "m" 4 [⟨5, "m", some 3, 1, 2, some "e", 1, 0, 0⟩] [5, 6]).2.1,
   by
    have h := (C8_upsertMany_idempotent id id 0 7 "m" 4
      [⟨5, "m", some 3, 1, 2, some "e", 1, 0, 0⟩] [5, 6]).2.2.1 0 (by decide) (by decide)
    rw [h]
    decide⟩

theorem append_no_low_before_high {A B : List QueueEntry}
    (hA : ∀ x ∈ A, isHigh x = true) (hB : ∀ x ∈ B, isHigh x = false)
    (i j : Nat) (hi : i < (A ++ B).length) (hj : j < (A ++ B).length)
    (hij : i ≤ j) (hjh : isHigh ((A ++ B).get ⟨j, hj⟩) = true) :
    isHigh ((A ++ B).get ⟨i, hi⟩) = true := by
  by_cases hiA : i < A.length
  · have : (A ++ B).get ⟨i, hi⟩ = A.get ⟨i, hiA⟩ := by
      simp only [List.get_eq_getElem]
      exact List.getElem_append_left hiA
    rw [this]
    exact hA _ (List.get_mem _ _ _)
  · exfalso
    have hjA : A.length ≤ j := le_trans (not_lt.mp hiA) hij
    have : (A ++ B).get ⟨j, hj⟩ = B.get ⟨j - A.length, by
        have := hj; simp at this ⊢; omega⟩ := by
      simp only [List.get_eq_getElem]
      exact List.getElem_append_right hjA
    rw [this] at hjh
    rw [hB _ (List.get_mem _ _ _)] at hjh
    cases hjh

/-- C1. `nextBatch` (`QueueService.get_next_batch`): for a positive batch
size, the service fetches up to `2 * batch_size` candidates of the given
supermarket ordered by `scan_priority DESC, last_scanned ASC NULLS FIRST`
(`queueLE`), partitions them into urgent (`isHigh`: `error_count > 0` or
never scanned) and routine, and returns up to `batch_size` entries: all
fetched urgent entries first, in fetched order, then routine fill; no
routine entry ever precedes an urgent entry in the result. -/
theorem C1_nextBatch_priority (entries : List QueueEntry) (name : String)
    (n : Nat) (hn : n ≠ 0) (hname : name ≠ "") :
    ∃ r, get_next_batch entries name n = .ok r ∧
      (get_products_to_scan entries name (n * 2)).length ≤ n * 2 ∧
      List.Sorted queueLE (get_products_to_scan entries name (n * 2)) ∧
      (∀ x ∈ get_products_to_scan entries name (n * 2),
        x ∈ entries ∧ x.supermarket_name = name) ∧
      r = ((get_products_to_scan entries name (n * 2)).filter
            (fun p => isHigh p)).take n ++
          ((get_products_to_scan entries name (n * 2)).filter
            (not ∘ fun p => isHigh p)).take
            (n - (((get_products_to_scan entries name (n * 2)).filter
              (fun p => isHigh p)).take n).length) ∧
      r.length ≤ n ∧
      (∀ (i j : Nat) (hi : i < r.length) (hj : j < r.length), i ≤ j →
        isHigh (r.get ⟨j, hj⟩) = true → isHigh (r.get ⟨i, hi⟩) = true) := by
  have hF := rfl (a := get_products_to_scan entries name (n * 2))
  refine ⟨_, ?_, ?_, ?_, ?_, rfl, ?_, ?_⟩
  · unfold get_next_batch
    rw [if_neg hn, if_neg hname]
    simp only [List.partition_eq_filter_filter]
    by_cases hlen : (((get_products_to_scan entries name (n * 2)).filter
        (fun p => isHigh p)).take n).length < n
    · rw [if_pos hlen]
    · rw [if_neg hlen]
      have h0 : n - (((get_products_to_scan entries name (n * 2)).filter
          (fun p => isHigh p)).take n).length = 0 := by omega
      rw [h0, List.take_zero, List.append_nil]
  · unfold get_products_to_scan
    rw [List.length_take]
    exact min_le_left _ _
  · exact List.Pairwise.sublist (List.take_sublist _ _)
      (List.sorted_insertionSort queueLE _)
  · intro x hx
    have hx2 : x ∈ List.insertionSort queueLE
        (entries.filter (fun e => e.supermarket_name == name)) :=
      (List.take_sublist _ _).mem hx
    have hx3 : x ∈ entries.filter (fun e => e.supermarket_name == name) :=
      (List.perm_insertionSort queueLE _).mem_iff.mp hx2
    have := List.mem_filter.mp hx3
    exact ⟨this.1, by simpa using this.2⟩
  · -- length bound
    rw [List.length_append]
    have h1 : (((get_products_to_scan entries name (n * 2)).filter
        (fun p => isHigh p)).take n).length ≤ n := by
      rw [List.length_take]; exact min_le_left _ _
    have h2 : (((get_products_to_scan entries name (n * 2)).filter
        (not ∘ fun p => isHigh p)).take
        (n - (((get_products_to_scan entries name (n * 2)).filter
          (fun p => isHigh p)).take n).length)).length ≤
        n - (((get_products_to_scan entries name (n * 2)).filter
          (fun p => isHigh p)).take n).length := by
      rw [List.length_take]; exact min_le_left _ _
    omega
  · intro i j hi hj hij hjh
    refine append_no_low_before_high ?_ ?_ i j hi hj hij hjh
    · intro x hx
      have := List.mem_filter.mp ((List.take_sublist _ _).mem hx)
      exact this.2
    · intro x hx
      have := List.mem_filter.mp ((List.take_sublist _ _).mem hx)
      simpa [Function.comp] using this.2

/-- Witness for C1: the spec's worked scenario — A (priority 0, scanned),
B (never scanned), C (priority 5, scanned); `nextBatch(2)` returns [B, C]. -/
theorem C1_nextBatch_priority_witness :
    get_next_batch
      [⟨1, "m", some 5, 0, 1, none, 0, 0, 0⟩,
       ⟨2, "m", none, 0, 0, none, 0, 0, 0⟩,
       ⟨3, "m", some 9, 5, 1, none, 0, 0, 0⟩] "m" 2 =
      .ok [⟨2, "m", none, 0, 0, none, 0, 0, 0⟩,
           ⟨3, "m", some 9, 5, 1, none, 0, 0, 0⟩] := by
  obtain ⟨r, hr, -, -, -, hcomp, -, -⟩ := C1_nextBatch_priority
    [⟨1, "m", some 5, 0, 1, none, 0, 0, 0⟩,
     ⟨2, "m", none, 0, 0, none, 0, 0, 0⟩,
     ⟨3, "m", some 9, 5, 1, none, 0, 0, 0⟩] "m" 2 (by decide) (by decide)
  rw [hcomp] at hr
  rw [hr]
  decide

/-! ### Price ledger theorems -/

/-- C7. `hasChanged` (`PriceHistoryService.has_price_changed`): always true
without a previous record; with one, false exactly when both
`product_price_amount` and `product_unit_price_amount` agree (with `none`
distinct from every numeric value). -/
theorem C7_hasChanged_characterisation (d : ProductData) :
    has_price_changed none d = true ∧
    ∀ o : Product,
      (has_price_changed (some o) d = false ↔
        (o.product_price_amount = d.product_price_amount ∧
         o.product_unit_price_amount = d.product_unit_price_amount)) := by
  refine ⟨rfl, ?_⟩
  intro o
  by_cases h1 : o.product_price_amount = d.product_price_amount <;>
    by_cases h2 : o.product_unit_price_amount = d.product_unit_price_amount <;>
      simp [has_price_changed, h1, h2]

theorem closerPred_closeRow_self (pid : Nat) (name : String) (t : Nat)
    (r : PHRow) : closerPred pid name (closeRow pid name t r) = false := by
  unfold closeRow
  by_cases hc : closerPred pid name r = true
  · rw [if_pos hc]
    simp [closerPred]
  · rw [if_neg hc]
    exact Bool.not_eq_true _ ▸ hc

theorem closerPred_closeRow_other {pid' pid : Nat} {name' name : String}
    (hne : ¬(pid' = pid ∧ name' = name)) (t : Nat) (r : PHRow) :
    closerPred pid' name' (closeRow pid name t r) = closerPred pid' name' r := by
  unfold closeRow
  by_cases hc : closerPred pid name r = true
  · have h1 : r.product_id = pid ∧ r.supermarket_name = name ∧ r.is_current = true := by
      simpa [closerPred, and_assoc] using hc
    rw [if_pos hc]
    have hl : closerPred pid' name'
        { r with is_current := false, valid_to := some t } = false := by
      simp [closerPred]
    have hr2 : closerPred pid' name' r = false := by
      rw [Bool.eq_false_iff]
      intro htrue
      have h2 : r.product_id = pid' ∧ r.supermarket_name = name' ∧ r.is_current = true := by
        simpa [closerPred, and_assoc] using htrue
      exact hne ⟨h2.1 ▸ h1.1, h2.2.1 ▸ h1.2.1⟩
    rw [hl, hr2]
  · rw [if_neg hc]

theorem countP_closeMap_self (rows : List PHRow) (pid : Nat) (name : String)
    (t : Nat) :
    (rows.map (closeRow pid name t)).countP (closerPred pid name) = 0 := by
  rw [List.countP_map, List.countP_eq_zero]
  intro r _
  simp only [Function.comp]
  rw [closerPred_closeRow_self]
  simp

theorem countP_closeMap_other (rows : List PHRow) {pid' pid : Nat}
    {name' name : String} (hne : ¬(pid' = pid ∧ name' = name)) (t : Nat) :
    (rows.map (closeRow pid name t)).countP (closerPred pid' name') =
      rows.countP (closerPred pid' name') := by
  rw [List.countP_map]
  apply List.countP_congr
  intro r _
  simp only [Function.comp]
  rw [closerPred_closeRow_other hne]

/-- One `recordIfChanged` call preserves the SCD2 invariant provided the
caller passed a previous product whenever an open row exists. -/
theorem ledgerInv_step (clock : Nat → Nat) (hm : Monotone clock)
    (s : List PHRow × Nat) (c : PriceCall) (hinv : LedgerInv clock s)
    (hwf : currentCount s.1 c.data.product_id c.data.supermarket_name = 0 ∨
      c.prevExists = true) :
    LedgerInv clock (stepLedger clock s c) := by
  obtain ⟨hcount, hclosed, hopen⟩ := hinv
  cases hprev : c.prevExists
  · -- no previous product passed: the well-formedness gives an empty key
    have hzero : currentCount s.1 c.data.product_id c.data.supermarket_name = 0 := by
      rcases hwf with h | h
      · exact h
      · rw [hprev] at h; cases h
    have hstate : stepLedger clock s c =
        (s.1 ++ [{ product_id := c.data.product_id,
                   supermarket_name := c.data.supermarket_name,
                   product_price_amount := c.data.product_price_amount,
                   product_unit_price_amount := c.data.product_unit_price_amount,
                   valid_from := clock s.2, valid_to := none,
                   is_current := true }], s.2 + 1) := by
      simp [stepLedger, create_price_history_entry, hprev, create_entry]
    rw [hstate]
    refine ⟨?_, ?_, ?_⟩
    · intro pid' name'
      unfold currentCount
      rw [List.countP_append]
      by_cases hk : pid' = c.data.product_id ∧ name' = c.data.supermarket_name
      · obtain ⟨hk1, hk2⟩ := hk
        rw [hk1, hk2]
        have h1 : List.countP
            (closerPred c.data.product_id c.data.supermarket_name) s.1 = 0 := hzero
        rw [h1]
        simp [List.countP_cons, closerPred]
      · have h2 : List.countP (closerPred pid' name')
            [{ product_id := c.data.product_id,
               supermarket_name := c.data.supermarket_name,
               product_price_amount := c.data.product_price_amount,
               product_unit_price_amount := c.data.product_unit_price_amount,
               valid_from := clock s.2, valid_to := none,
               is_current := true }] = 0 := by
          simp only [List.countP_cons, List.countP_nil]
          have : closerPred pid' name'
              { product_id := c.data.product_id,
                supermarket_name := c.data.supermarket_name,
                product_price_amount := c.data.product_price_amount,
                product_unit_price_amount := c.data.product_unit_price_amount,
                valid_from := clock s.2, valid_to := none,
                is_current := true } = false := by
            rw [Bool.eq_false_iff]
            intro htrue
            have := by simpa [closerPred, and_assoc] using htrue
            exact hk ⟨this.1.symm, this.2.symm⟩
          simp [this]
        rw [h2]
        simpa using hcount pid' name'
    · intro r hr t ht
      rcases List.mem_append.mp hr with h | h
      · exact hclosed r h t ht
      · rcases List.mem_singleton.mp h with rfl
        cases ht
    · intro r hr hcur
      rcases List.mem_append.mp hr with h | h
      · exact le_trans (hopen r h hcur) (hm (Nat.le_succ _))
      · rcases List.mem_singleton.mp h with rfl
        exact hm (Nat.le_succ _)
  · -- previous product passed: close then insert with a fresh timestamp
    have hstate : stepLedger clock s c =
        (s.1.map (closeRow c.data.product_id c.data.supermarket_name (clock s.2)) ++
          [{ product_id := c.data.product_id,
             supermarket_name := c.data.supermarket_name,
             product_price_amount := c.data.product_price_amount,
             product_unit_price_amount := c.data.product_unit_price_amount,
             valid_from := clock (s.2 + 1), valid_to := none,
             is_current := true }], s.2 + 1 + 1) := by
      simp [stepLedger, create_price_history_entry, hprev, close_previous_entry,
        create_entry]
    rw [hstate]
    refine ⟨?_, ?_, ?_⟩
    · intro pid' name'
      unfold currentCount
      rw [List.countP_append]
      by_cases hk : pid' = c.data.product_id ∧ name' = c.data.supermarket_name
      · obtain ⟨hk1, hk2⟩ := hk
        subst hk1; subst hk2
        rw [countP_closeMap_self]
        simp [List.countP_cons, closerPred]
      · rw [countP_closeMap_other s.1 hk]
        have h2 : closerPred pid' name'
            { product_id := c.data.product_id,
              supermarket_name := c.data.supermarket_name,
              product_price_amount := c.data.product_price_amount,
              product_unit_price_amount := c.data.product_unit_price_amount,
              valid_from := clock (s.2 + 1), valid_to := none,
              is_current := true } = false := by
          rw [Bool.eq_false_iff]
          intro htrue
          have := by simpa [closerPred, and_assoc] using htrue
          exact hk ⟨this.1.symm, this.2.symm⟩
        simp only [List.countP_cons, List.countP_nil, h2]
        simpa using hcount pid' name'
    · intro r hr t ht
      rcases List.mem_append.mp hr with h | h
      · rcases List.mem_map.mp h with ⟨r0, hr0, hre⟩
        by_cases hc : closerPred c.data.product_id c.data.supermarket_name r0 = true
        · have hcur0 : r0.is_current = true := by
            have := by simpa [closerPred, and_assoc] using hc
            exact this.2.2
          have hre' : r = { r0 with is_current := false, valid_to := some (clock s.2) } := by
            rw [← hre]
            unfold closeRow
            rw [if_pos hc]
          subst hre'
          have ht' : some (clock s.2) = some t := ht
          have heq : clock s.2 = t := Option.some.inj ht'
          exact heq ▸ hopen r0 hr0 hcur0
        · have hre' : r = r0 := by
            rw [← hre]
            unfold closeRow
            rw [if_neg hc]
          rw [hre'] at ht ⊢
          exact hclosed r0 hr0 t ht
      · rcases List.mem_singleton.mp h with rfl
        cases ht
    · intro r hr hcur
      rcases List.mem_append.mp hr with h | h
      · rcases List.mem_map.mp h with ⟨r0, hr0, hre⟩
        by_cases hc : closerPred c.data.product_id c.data.supermarket_name r0 = true
        · exfalso
          have : r.is_current = false := by
            rw [← hre]
            unfold closeRow
            rw [if_pos hc]
          rw [this] at hcur
          cases hcur
        · have hre' : r = r0 := by
            rw [← hre]
            unfold closeRow
            rw [if_neg hc]
          rw [hre'] at hcur ⊢
          exact le_trans (hopen r0 hr0 hcur)
            (hm (show s.2 ≤ s.2 + 1 + 1 by omega))
      · rcases List.mem_singleton.mp h with rfl
        exact hm (show s.2 + 1 ≤ s.2 + 1 + 1 by omega)

/-! ### Batch pacing theorems -/

theorem chunksOfAux_nil (fuel C : Nat) : chunksOfAux fuel C [] = [] := by
  cases fuel <;> rfl

theorem batchChunksLoopAux_eq_intersperse (C : Nat) (hC : 0 < C) (pause : ℚ) :
    ∀ (fuel : Nat) (l : List Nat), l.length ≤ fuel →
      batchChunksLoopAux fuel C pause l =
        List.intersperse (ScrEvent.doSleep pause)
          ((chunksOfAux fuel C l).map ScrEvent.gather) := by
  intro fuel
  induction fuel with
  | zero =>
    intro l hl
    have : l = [] := List.length_eq_zero.mp (Nat.le_zero.mp hl)
    subst this
    rfl
  | succ fuel ih =>
    intro l hl
    cases l with
    | nil => rfl
    | cons t ts =>
      by_cases hlt : C < (t :: ts).length
      · have hdl : ((t :: ts).drop C).length ≤ fuel := by
          rw [List.length_drop]
          simp only [List.length_cons] at hl ⊢
          omega
        have hdne : (t :: ts).drop C ≠ [] := by
          rw [← List.length_pos, List.length_drop]
          omega
        obtain ⟨a, as, hdrop⟩ : ∃ a as, (t :: ts).drop C = a :: as := by
          cases hd : (t :: ts).drop C with
          | nil => exact absurd hd hdne
          | cons a as => exact ⟨a, as, rfl⟩
        obtain ⟨fuel', rfl⟩ : ∃ f, fuel = f + 1 := by
          cases fuel with
          | zero =>
            exfalso
            rw [hdrop] at hdl
            simp at hdl
          | succ f => exact ⟨f, rfl⟩
        show ScrEvent.gather ((t :: ts).take C) ::
            (if C < (t :: ts).length then
              ScrEvent.doSleep pause ::
                batchChunksLoopAux (fuel' + 1) C pause ((t :: ts).drop C)
            else []) = _
        rw [if_pos hlt, ih _ hdl]
        show _ = List.intersperse (ScrEvent.doSleep pause)
          (((t :: ts).take C :: chunksOfAux (fuel' + 1) C ((t :: ts).drop C)).map
            ScrEvent.gather)
        rw [hdrop]
        show _ = List.intersperse (ScrEvent.doSleep pause)
          (ScrEvent.gather ((t :: ts).take C) ::
            ScrEvent.gather ((a :: as).take C) ::
              (chunksOfAux fuel' C ((a :: as).drop C)).map ScrEvent.gather)
        rw [List.intersperse_cons_cons]
        rfl
      · have hdnil : (t :: ts).drop C = [] :=
          List.drop_eq_nil_of_le (not_lt.mp hlt)
        show ScrEvent.gather ((t :: ts).take C) ::
            (if C < (t :: ts).length then
              ScrEvent.doSleep pause ::
                batchChunksLoopAux fuel C pause ((t :: ts).drop C)
            else []) = _
        rw [if_neg hlt]
        show _ = List.intersperse (ScrEvent.doSleep pause)
          (((t :: ts).take C :: chunksOfAux fuel C ((t :: ts).drop C)).map
            ScrEvent.gather)
        rw [hdnil, chunksOfAux_nil]
        rw [List.map_cons, List.map_nil, List.intersperse_singleton]

theorem chunksOfAux_length (C : Nat) (hC : 0 < C) :
    ∀ (fuel : Nat) (l : List Nat), l.length ≤ fuel →
      (chunksOfAux fuel C l).length = (l.length + C - 1) / C := by
  intro fuel
  induction fuel with
  | zero =>
    intro l hl
    have : l = [] := List.length_eq_zero.mp (Nat.le_zero.mp hl)
    subst this
    have h0 : (C - 1) / C = 0 := Nat.div_eq_of_lt (by omega)
    simp [chunksOfAux, h0]
  | succ fuel ih =>
    intro l hl
    cases l with
    | nil =>
      have h0 : (C - 1) / C = 0 := Nat.div_eq_of_lt (by omega)
      simp [chunksOfAux, h0]
    | cons t ts =>
      have hlen : (chunksOfAux (fuel + 1) C (t :: ts)).length =
          1 + (chunksOfAux fuel C ((t :: ts).drop C)).length := by
        simp [chunksOfAux, Nat.add_comm]
      rw [hlen, ih _ (by rw [List.length_drop]; simp only [List.length_cons] at hl ⊢; omega)]
      rw [List.length_drop]
      by_cases hle : (t :: ts).length ≤ C
      · have h1 : (t :: ts).length - C = 0 := by omega
        rw [h1]
        have h2 : (0 + C - 1) / C = 0 := Nat.div_eq_of_lt (by omega)
        rw [h2]
        have h3 : ((t :: ts).length + C - 1) / C = 1 := by
          apply Nat.div_eq_of_lt_le
          · simp only [List.length_cons] at hle ⊢
            omega
          · simp only [List.length_cons] at hle ⊢
            omega
        omega
      · have h1 : (t :: ts).length - C + C - 1 = (t :: ts).length - 1 := by omega
        have h2 : (t :: ts).length + C - 1 = ((t :: ts).length - 1) + C := by
          simp only [List.length_cons]
          omega
        rw [h1, h2, Nat.add_div_right _ hC]
        omega

theorem chunksOfAux_mem (C : Nat) (hC : 0 < C) :
    ∀ (fuel : Nat) (l : List Nat), ∀ ch ∈ chunksOfAux fuel C l,
      ch ≠ [] ∧ ch.length ≤ C := by
  intro fuel
  induction fuel with
  | zero =>
    intro l ch hch
    cases hch
  | succ fuel ih =>
    intro l ch hch
    cases l with
    | nil => cases hch
    | cons t ts =>
      rcases List.mem_cons.mp hch with h | h
      · subst h
        constructor
        · rw [Ne, List.take_eq_nil_iff]
          rintro (h | h)
          · omega
          · cases h
        · rw [List.length_take]
          exact min_le_left _ _
      · exact ih _ ch h

/-- C4 (amended). The chunked pacing behaviour belongs to
`BaseScraper.process_products_batch`: for every nonempty id list, positive
concurrency cap `C` and duration `D` minutes, its schedule is exactly the
chunks of size `C` in order, interspersed with single sleeps of
`(D*60/N) * C` seconds between consecutive chunks (none inside a chunk,
none after the last), and the number of chunks is `ceil(N/C)`. -/
theorem C4_processProductsBatch_pacing (ids : List Nat) (D C : Nat)
    (hne : ids ≠ []) (hC : 0 < C) :
    processProductsBatchSchedule ids D C = claimedPacedSchedule ids D C ∧
    (chunksOf C ids).length = (ids.length + C - 1) / C ∧
    (∀ ch ∈ chunksOf C ids, ch ≠ [] ∧ ch.length ≤ C) := by
  refine ⟨?_, chunksOfAux_length C hC ids.length ids (le_refl _),
    chunksOfAux_mem C hC ids.length ids⟩
  unfold processProductsBatchSchedule claimedPacedSchedule chunksOf
  rw [if_neg (fun hcon => hne (List.isEmpty_iff.mp hcon))]
  exact batchChunksLoopAux_eq_intersperse C hC _ ids.length ids (le_refl _)

/-- Witness for C4 (amended) at 3 ids, 10 minutes, concurrency 2. -/
theorem C4_processProductsBatch_pacing_witness :
    processProductsBatchSchedule [1, 2, 3] 10 2 =
      claimedPacedSchedule [1, 2, 3] 10 2 ∧
    (chunksOf 2 [1, 2, 3]).length = (3 + 2 - 1) / 2 :=
  ⟨(C4_processProductsBatch_pacing [1, 2, 3] 10 2 (by decide) (by decide)).1,
   (C4_processProductsBatch_pacing [1, 2, 3] 10 2 (by decide) (by decide)).2.1⟩

/-- C4 (counterexample). `ScrapingService.process_batch` (the spec's
`runBatch`) does NOT issue fetches in concurrency-sized chunks with pacing
sleeps: on a 3-item batch its scraper trace is three strictly sequential
fetches with zero sleeps, while the schedule the claim prescribes (with
D = 10 min, C = 2 — as produced by the unused
`BaseScraper.process_products_batch`) has one sleep between the two chunks
`[1, 2]` and `[3]`, and differs from the trace process_batch produces. -/
theorem C4_counterexample_processBatch_no_pacing :
    (process_batch id (fun _ => FetchOutcome.notFound) none "bonpreu"
      ⟨⟨[], [⟨1, "bonpreu", none, 0, 0, none, 0, 0, 0⟩,
             ⟨2, "bonpreu", none, 0, 0, none, 0, 0, 0⟩,
             ⟨3, "bonpreu", none, 0, 0, none, 0, 0, 0⟩], []⟩,
       ⟨[], [⟨1, "bonpreu", none, 0, 0, none, 0, 0, 0⟩,
             ⟨2, "bonpreu", none, 0, 0, none, 0, 0, 0⟩,
             ⟨3, "bonpreu", none, 0, 0, none, 0, 0, 0⟩], []⟩, 0⟩).toOption.map
      (fun x => x.2.2) =
      some [ScrEvent.fetchOne 1, ScrEvent.fetchOne 2, ScrEvent.fetchOne 3] ∧
    (processProductsBatchSchedule [1, 2, 3] 10 2).countP isSleepEv = 1 ∧
    (processProductsBatchSchedule [1, 2, 3] 10 2).filterMap
      (fun ev => match ev with | ScrEvent.gather l => some l | _ => none) =
      [[1, 2], [3]] ∧
    [ScrEvent.fetchOne 1, ScrEvent.fetchOne 2, ScrEvent.fetchOne 3].countP
      isSleepEv = 0 ∧
    [ScrEvent.fetchOne 1, ScrEvent.fetchOne 2, ScrEvent.fetchOne 3] ≠
      processProductsBatchSchedule [1, 2, 3] 10 2 := by
  exact ⟨by decide, by decide, by decide, by decide, by decide⟩

/-! ### Orchestrator error-handling theorems -/

/-- C9. `runSingleItem` (`ScrapingService.process_product`): when an
exception occurs — the fetch raises, or the commit raises after a
successful snapshot — every persistent change of the call is rolled back,
including the failure outcome the except-block writes to the queue entry
just before rolling back: the current and committed states (in particular
every queue entry) equal their values before the call, and the call
returns `success = false` carrying the exception's message. -/
theorem C9_singleItem_rollback (clock : Nat → Nat) (fetch : Nat → FetchOutcome)
    (cf : Option String) (name : String) (pid : Nat) (s : DbSession)
    (msg : String) (hknown : scrapersKnown name = true)
    (hclean : s.current = s.committed)
    (hexc : fetch pid = .raised msg ∨
      ((∃ d, fetch pid = .found d) ∧ cf = some msg)) :
    ∃ r s', process_product clock fetch cf name pid s = .ok (r, s') ∧
      r.success = false ∧ r.message = msg ∧
      s'.current = s.current ∧ s'.committed = s.committed ∧
      s'.current.queue = s.current.queue := by
  have hif : (if ¬ scrapersKnown name = true then
      (Except.error ("Unknown supermarket: " ++ name) :
        Except String (SingleResult × DbSession))
    else process_product clock fetch cf name pid s) =
      process_product clock fetch cf name pid s :=
    if_neg (fun hcon => hcon hknown)
  rcases hexc with hr | ⟨⟨d, hd⟩, hcf⟩
  · unfold process_product
    rw [if_neg (fun hcon => hcon hknown), hr]
    exact ⟨_, _, rfl, rfl, rfl, hclean.symm, rfl, congrArg DB.queue hclean.symm⟩
  · subst hcf
    unfold process_product
    rw [if_neg (fun hcon => hcon hknown), hd]
    refine ⟨_, _, rfl, rfl, rfl, ?_, ?_, ?_⟩
    · show (if has_price_changed (productGetById s.current.products pid name) d
          then _ else s).committed = s.current
      split
      · exact hclean.symm
      · exact hclean.symm
    · show (if has_price_changed (productGetById s.current.products pid name) d
          then _ else s).committed = s.committed
      split
      · rfl
      · rfl
    · show (if has_price_changed (productGetById s.current.products pid name) d
          then _ else s).committed.queue = s.current.queue
      split
      · exact congrArg DB.queue hclean.symm
      · exact congrArg DB.queue hclean.symm

/-- Witness for C9: a clean one-entry session whose fetch raises; the queue
entry is untouched after the call despite the recorded failure outcome. -/
theorem C9_singleItem_rollback_witness :
    ∃ r s', process_product id (fun _ => FetchOutcome.raised "boom") none
        "bonpreu" 1
        ⟨⟨[], [⟨1, "bonpreu", none, 0, 0, none, 0, 0, 0⟩], []⟩,
         ⟨[], [⟨1, "bonpreu", none, 0, 0, none, 0, 0, 0⟩], []⟩, 0⟩ = .ok (r, s') ∧
      r.success = false ∧ r.message = "boom" ∧
      s'.current.queue = [⟨1, "bonpreu", none, 0, 0, none, 0, 0, 0⟩] := by
  obtain ⟨r, s', hok, hsucc, hmsg, hcur, -, hq⟩ :=
    C9_singleItem_rollback id (fun _ => FetchOutcome.raised "boom") none
      "bonpreu" 1
      ⟨⟨[], [⟨1, "bonpreu", none, 0, 0, none, 0, 0, 0⟩], []⟩,
       ⟨[], [⟨1, "bonpreu", none, 0, 0, none, 0, 0, 0⟩], []⟩, 0⟩ "boom"
      (by decide) rfl (Or.inl rfl)
  exact ⟨r, s', hok, hsucc, hmsg, hq⟩

theorem updateFirst_length {α : Type} (p : α → Bool) (f : α → α) :
    ∀ (l : List α), (updateFirst p f l).1.length = l.length
  | [] => rfl
  | x :: xs => by
    unfold updateFirst
    by_cases hx : p x = true
    · rw [if_pos hx]
      simp
    · rw [if_neg hx]
      simpa using updateFirst_length p f xs

theorem updateFirst_get {α : Type} (p : α → Bool) (f : α → α) :
    ∀ (l : List α) (j : Nat) (hj : j < l.length)
      (hj' : j < (updateFirst p f l).1.length),
      (updateFirst p f l).1.get ⟨j, hj'⟩ = l.get ⟨j, hj⟩ ∨
        (p (l.get ⟨j, hj⟩) = true ∧
         (updateFirst p f l).1.get ⟨j, hj'⟩ = f (l.get ⟨j, hj⟩))
  | [], j, hj, _ => absurd hj (by simp)
  | x :: xs, j, hj, hj' => by
    by_cases hx : p x = true
    · have hq : (updateFirst p f (x :: xs)).1 = f x :: xs := by
        simp only [updateFirst, if_pos hx]
      cases j with
      | zero =>
        right
        refine ⟨hx, ?_⟩
        rw [get_congr hq 0 hj' (by simp)]
        rfl
      | succ j =>
        left
        rw [get_congr hq (j + 1) hj' (by simpa using hj)]
        rfl
    · have hq : (updateFirst p f (x :: xs)).1 = x :: (updateFirst p f xs).1 := by
        simp only [updateFirst, if_neg hx]
      cases j with
      | zero =>
        left
        rw [get_congr hq 0 hj' (by simp [updateFirst_length])]
        rfl
      | succ j =>
        have hj2 : j < xs.length := by simpa using hj
        have hj3 : j < (updateFirst p f xs).1.length := by
          rw [updateFirst_length]; exact hj2
        have := updateFirst_get p f xs j hj2 hj3
        rw [get_congr hq (j + 1) hj' (by simp [updateFirst_length]; omega)]
        simpa using this

theorem uss_length (clock : Nat → Nat) (q : List QueueEntry) (tick : Nat)
    (pid : Nat) (name : String) (success : Bool) (msg : Option String) :
    (update_scan_status clock q tick pid name success msg).1.length = q.length := by
  simp only [update_scan_status]
  by_cases hr : (updateFirst (keyMatch pid name)
      (statusUpd clock tick success msg) q).2 = true
  · rw [if_pos hr]
    exact updateFirst_length _ _ q
  · rw [if_neg hr]

theorem uss_get_cases (clock : Nat → Nat) (q : List QueueEntry) (tick : Nat)
    (pid : Nat) (name : String) (success : Bool) (msg : Option String)
    (j : Nat) (hj : j < q.length)
    (hj' : j < (update_scan_status clock q tick pid name success msg).1.length) :
    (update_scan_status clock q tick pid name success msg).1.get ⟨j, hj'⟩ =
      q.get ⟨j, hj⟩ ∨
    (keyMatch pid name (q.get ⟨j, hj⟩) = true ∧
     (update_scan_status clock q tick pid name success msg).1.get ⟨j, hj'⟩ =
       statusUpd clock tick success msg (q.get ⟨j, hj⟩)) := by
  by_cases hr : (updateFirst (keyMatch pid name)
      (statusUpd clock tick success msg) q).2 = true
  · have hq : (update_scan_status clock q tick pid name success msg).1 =
        (updateFirst (keyMatch pid name) (statusUpd clock tick success msg) q).1 := by
      simp only [update_scan_status]
      rw [if_pos hr]
    have hj2 : j < (updateFirst (keyMatch pid name)
        (statusUpd clock tick success msg) q).1.length := by
      rw [updateFirst_length]; exact hj
    rw [get_congr hq j hj' hj2]
    exact updateFirst_get _ _ q j hj hj2
  · have hq : (update_scan_status clock q tick pid name success msg).1 = q := by
      simp only [update_scan_status]
      rw [if_neg hr]
    rw [get_congr hq j hj' hj]
    exact Or.inl rfl

theorem uss_at_split (clock : Nat → Nat) (tick : Nat) (pid : Nat)
    (name : String) (success : Bool) (msg : Option String)
    (q1 : List QueueEntry) (e : QueueEntry) (q2 : List QueueEntry)
    (hpre : ∀ y ∈ q1, keyMatch pid name y = false)
    (he : keyMatch pid name e = true) :
    (update_scan_status clock (q1 ++ e :: q2) tick pid name success msg).1 =
      q1 ++ statusUpd clock tick success msg e :: q2 := by
  unfold update_scan_status
  rw [updateFirst_append_pos (f := _) he q1 q2 hpre]
  rfl

theorem keyMatch_statusUpd (a : Nat) (b : String) (clock : Nat → Nat)
    (tick : Nat) (success : Bool) (msg : Option String) (e : QueueEntry) :
    keyMatch a b (statusUpd clock tick success msg e) = keyMatch a b e := by
  cases success <;> rfl

theorem keyMatch_true_pid {pid : Nat} {name : String} {e : QueueEntry}
    (h : keyMatch pid name e = true) :
    e.product_id = pid ∧ e.supermarket_name = name := by
  simpa [keyMatch] using h

/-- `processOneItem` never touches the committed database state. -/
theorem poi_committed (clock : Nat → Nat) (fetch : Nat → FetchOutcome)
    (name : String) (st : DbSession × Nat × Nat) (pid : Nat) :
    (processOneItem clock fetch name st pid).1.committed = st.1.committed := by
  unfold processOneItem
  cases fetch pid with
  | raised msg => rfl
  | notFound => rfl
  | found d =>
    show (if has_price_changed (productGetById st.1.current.products pid name) d
        then _ else st.1).committed = st.1.committed
    split
    · rfl
    · rfl

/-- In each loop iteration the queue is only ever rewritten by one
`update_scan_status` call for that iteration's id. -/
theorem poi_queue_eq (clock : Nat → Nat) (fetch : Nat → FetchOutcome)
    (name : String) (st : DbSession × Nat × Nat) (pid : Nat) :
    ∃ (t : Nat) (b : Bool) (m : Option String),
      (processOneItem clock fetch name st pid).1.current.queue =
        (update_scan_status clock st.1.current.queue t pid name b m).1 := by
  rcases hf : fetch pid with d | _ | msg
  · simp only [processOneItem, hf]
    split
    · exact ⟨_, true, none, rfl⟩
    · exact ⟨_, true, none, rfl⟩
  · exact ⟨st.1.tick, false, some "Product not found",
      by simp only [processOneItem, hf]⟩
  · exact ⟨st.1.tick, false, some msg, by simp only [processOneItem, hf]⟩

/-- Within one loop iteration the queue keeps its length and each row is
either untouched or — only when it is a row matching the iteration's key —
rewritten by `statusUpd`. -/
theorem poi_queue_shape (clock : Nat → Nat) (fetch : Nat → FetchOutcome)
    (name : String) (st : DbSession × Nat × Nat) (pid : Nat) :
    (processOneItem clock fetch name st pid).1.current.queue.length =
      st.1.current.queue.length ∧
    ∀ (j : Nat) (hj : j < st.1.current.queue.length)
      (hj' : j < (processOneItem clock fetch name st pid).1.current.queue.length),
      (processOneItem clock fetch name st pid).1.current.queue.get ⟨j, hj'⟩ =
        st.1.current.queue.get ⟨j, hj⟩ ∨
      (keyMatch pid name (st.1.current.queue.get ⟨j, hj⟩) = true ∧
       ∃ (t : Nat) (b : Bool) (m : Option String),
         (processOneItem clock fetch name st pid).1.current.queue.get ⟨j, hj'⟩ =
           statusUpd clock t b m (st.1.current.queue.get ⟨j, hj⟩)) := by
  obtain ⟨t, b, m, hq⟩ := poi_queue_eq clock fetch name st pid
  constructor
  · rw [hq]
    exact uss_length _ _ _ _ _ _ _
  · intro j hj hj'
    have hj2 : j < (update_scan_status clock st.1.current.queue t pid name b m).1.length := by
      rw [← hq]
      exact hj'
    rw [get_congr hq j hj' hj2]
    rcases uss_get_cases clock st.1.current.queue t pid name b m j hj hj2 with
      h | ⟨hk, h⟩
    · exact Or.inl h
    · exact Or.inr ⟨hk, t, b, m, h⟩

theorem foldl_inv {σ β : Type} (f : σ → β → σ) (P : σ → Prop) :
    ∀ (l : List β) (s : σ), P s → (∀ x ∈ l, ∀ st, P st → P (f st x)) →
      P (l.foldl f s)
  | [], s, hs, _ => hs
  | x :: xs, s, hs, hstep =>
    foldl_inv f P xs (f s x) (hstep x (by simp) s hs)
      (fun y hy st hst => hstep y (by simp [hy]) st hst)

/-- The loop counters: `updated_count` counts snapshot outcomes and
`error_count` counts `None`/exception outcomes, one per id. -/
theorem foldl_counters (clock : Nat → Nat) (fetch : Nat → FetchOutcome)
    (name : String) :
    ∀ (ids : List Nat) (st : DbSession × Nat × Nat),
      (ids.foldl (processOneItem clock fetch name) st).2.1 =
        st.2.1 + ids.countP (fun pid => !isFail (fetch pid)) ∧
      (ids.foldl (processOneItem clock fetch name) st).2.2 =
        st.2.2 + ids.countP (fun pid => isFail (fetch pid))
  | [], st => by simp
  | pid :: ids, st => by
    have ih := foldl_counters clock fetch name ids (processOneItem clock fetch name st pid)
    have hstep : (processOneItem clock fetch name st pid).2.1 =
        st.2.1 + (if isFail (fetch pid) then 0 else 1) ∧
        (processOneItem clock fetch name st pid).2.2 =
          st.2.2 + (if isFail (fetch pid) then 1 else 0) := by
      unfold processOneItem
      cases hf : fetch pid <;> simp [isFail]
    rw [List.foldl_cons] at *
    refine ⟨?_, ?_⟩
    · rw [ih.1, hstep.1]
      simp only [List.countP_cons]
      by_cases hfail : isFail (fetch pid) = true <;> simp [hfail] <;> omega
    · rw [ih.2, hstep.2]
      simp only [List.countP_cons]
      by_cases hfail : isFail (fetch pid) = true <;> simp [hfail] <;> omega

/-- `update_scan_results` preserves identity and error fields of every row. -/
theorem usr_fields (clock : Nat → Nat) :
    ∀ (products : List QueueEntry) (q : List QueueEntry) (tick : Nat)
      (j : Nat) (hj : j < q.length),
      ∃ (hj' : j < (update_scan_results clock q tick products).1.length),
        ((update_scan_results clock q tick products).1.get ⟨j, hj'⟩).product_id =
          (q.get ⟨j, hj⟩).product_id ∧
        ((update_scan_results clock q tick products).1.get ⟨j, hj'⟩).supermarket_name =
          (q.get ⟨j, hj⟩).supermarket_name ∧
        ((update_scan_results clock q tick products).1.get ⟨j, hj'⟩).error_count =
          (q.get ⟨j, hj⟩).error_count ∧
        ((update_scan_results clock q tick products).1.get ⟨j, hj'⟩).last_error =
          (q.get ⟨j, hj⟩).last_error ∧
        ((update_scan_results clock q tick products).1.get ⟨j, hj'⟩).scan_priority =
          (q.get ⟨j, hj⟩).scan_priority
  | [], q, tick, j, hj => ⟨hj, rfl, rfl, rfl, rfl, rfl⟩
  | p :: ps, q, tick, j, hj => by
    have hlen : (updateFirst (keyMatch p.product_id p.supermarket_name)
        (resultsUpd clock tick) q).1.length = q.length := updateFirst_length _ _ q
    have hj1 : j < (updateFirst (keyMatch p.product_id p.supermarket_name)
        (resultsUpd clock tick) q).1.length := by rw [hlen]; exact hj
    have hstep := updateFirst_get (keyMatch p.product_id p.supermarket_name)
      (resultsUpd clock tick) q j hj hj1
    have ih := usr_fields clock ps
      (updateFirst (keyMatch p.product_id p.supermarket_name)
        (resultsUpd clock tick) q).1 (tick + 2) j hj1
    obtain ⟨hj2, ih1, ih2, ih3, ih4, ih5⟩ := ih
    have hshow : update_scan_results clock q tick (p :: ps) =
        update_scan_results clock
          (updateFirst (keyMatch p.product_id p.supermarket_name)
            (resultsUpd clock tick) q).1 (tick + 2) ps := rfl
    rw [hshow]
    refine ⟨hj2, ?_, ?_, ?_, ?_, ?_⟩
    · rw [ih1]
      rcases hstep with h | ⟨-, h⟩ <;> rw [h] <;> rfl
    · rw [ih2]
      rcases hstep with h | ⟨-, h⟩ <;> rw [h] <;> rfl
    · rw [ih3]
      rcases hstep with h | ⟨-, h⟩ <;> rw [h] <;> rfl
    · rw [ih4]
      rcases hstep with h | ⟨-, h⟩ <;> rw [h] <;> rfl
    · rw [ih5]
      rcases hstep with h | ⟨-, h⟩ <;> rw [h] <;> rfl

theorem get_append_length {α : Type} (l1 : List α) (x : α) (l2 : List α)
    (h : l1.length < (l1 ++ x :: l2).length) :
    (l1 ++ x :: l2).get ⟨l1.length, h⟩ = x := by
  simp only [List.get_eq_getElem]
  rw [List.getElem_append_right (le_refl l1.length)]
  simp

theorem take_forall_keyfalse (pid : Nat) (name : String) (q : List QueueEntry)
    (k : Nat) (h : ∀ (j : Nat) (hj : j < q.length), j < k →
      keyMatch pid name (q.get ⟨j, hj⟩) = false) :
    ∀ y ∈ q.take k, keyMatch pid name y = false := by
  intro y hy
  rcases List.mem_iff_getElem.mp hy with ⟨j, hj, hget⟩
  have hjq : j < q.length := lt_of_lt_of_le hj (by simp [List.length_take])
  have hjk : j < k := by
    have := hj
    rw [List.length_take] at this
    omega
  have : (q.take k)[j] = q[j] := List.getElem_take _
  rw [this] at hget
  rw [← hget]
  exact h j hjq hjk

theorem get_append_at {α : Type} (l1 : List α) (x : α) (l2 : List α)
    (k : Nat) (hkl : k = l1.length) (h : k < (l1 ++ x :: l2).length) :
    (l1 ++ x :: l2).get ⟨k, h⟩ = x := by
  subst hkl
  exact get_append_length l1 x l2 h

theorem index_to_split {α : Type} (q : List α) (k : Nat) (hk : k < q.length) :
    q = q.take k ++ q.get ⟨k, hk⟩ :: q.drop (k + 1) := by
  conv_lhs => rw [← List.take_append_drop k q]
  congr 1
  rw [List.drop_eq_getElem_cons hk]
  rfl

/-- The fetch-raised branch of the loop body records the exception message
as a failure outcome on the item's queue entry. -/
theorem poi_raised_queue (clock : Nat → Nat) (fetch : Nat → FetchOutcome)
    (name : String) (st : DbSession × Nat × Nat) (pid : Nat) (msg : String)
    (hf : fetch pid = .raised msg) :
    (processOneItem clock fetch name st pid).1.current.queue =
      (update_scan_status clock st.1.current.queue st.1.tick pid name
        false (some msg)).1 := by
  simp only [processOneItem, hf]

/-- A failure `update_scan_status` on the first row matching the key at
index `k` bumps that row's `error_count` and `scan_priority` by one and
stores the message. -/
theorem uss_write_failure (clock : Nat → Nat) (q : List QueueEntry)
    (tick : Nat) (pid0 : Nat) (name : String) (msg : String) (k : Nat)
    (hk : k < q.length) (hke : keyMatch pid0 name (q.get ⟨k, hk⟩) = true)
    (hpre : ∀ (j : Nat) (hj : j < q.length), j < k →
      keyMatch pid0 name (q.get ⟨j, hj⟩) = false) :
    ∃ (hk2 : k < (update_scan_status clock q tick pid0 name false (some msg)).1.length),
      ((update_scan_status clock q tick pid0 name false (some msg)).1.get
          ⟨k, hk2⟩).product_id = (q.get ⟨k, hk⟩).product_id ∧
      ((update_scan_status clock q tick pid0 name false (some msg)).1.get
          ⟨k, hk2⟩).error_count = (q.get ⟨k, hk⟩).error_count + 1 ∧
      ((update_scan_status clock q tick pid0 name false (some msg)).1.get
          ⟨k, hk2⟩).last_error = some msg ∧
      ((update_scan_status clock q tick pid0 name false (some msg)).1.get
          ⟨k, hk2⟩).scan_priority = (q.get ⟨k, hk⟩).scan_priority + 1 := by
  have htk : (q.take k).length = k := by
    rw [List.length_take]
    exact min_eq_left (le_of_lt hk)
  have heq : (update_scan_status clock q tick pid0 name false (some msg)).1 =
      q.take k ++ statusUpd clock tick false (some msg) (q.get ⟨k, hk⟩) ::
        q.drop (k + 1) := by
    conv_lhs => rw [index_to_split q k hk]
    exact uss_at_split clock tick pid0 name false (some msg) _ _ _
      (take_forall_keyfalse pid0 name q k hpre) hke
  have hk2 : k < (update_scan_status clock q tick pid0 name false (some msg)).1.length := by
    rw [uss_length]
    exact hk
  have hk3 : k < (q.take k ++ statusUpd clock tick false (some msg)
      (q.get ⟨k, hk⟩) :: q.drop (k + 1)).length := by
    rw [List.length_append, List.length_cons, htk]
    omega
  have hget : (update_scan_status clock q tick pid0 name false (some msg)).1.get
      ⟨k, hk2⟩ = statusUpd clock tick false (some msg) (q.get ⟨k, hk⟩) := by
    rw [get_congr heq k hk2 hk3]
    exact get_append_at _ _ _ k htk.symm hk3
  exact ⟨hk2, by rw [hget]; rfl, by rw [hget]; rfl, by rw [hget]; rfl,
    by rw [hget]; rfl⟩

/-- Looping over ids distinct from `pid0` never touches the protected row
at index `k` (whose key is `(pid0, name)`) nor any row before it. -/
theorem fold_protected (clock : Nat → Nat) (fetch : Nat → FetchOutcome)
    (name : String) (pid0 : Nat) (e : QueueEntry)
    (hkey : keyMatch pid0 name e = true) (k : Nat) :
    ∀ (l : List Nat), pid0 ∉ l → ∀ (st : DbSession × Nat × Nat),
      (∃ (hk : k < st.1.current.queue.length),
        st.1.current.queue.get ⟨k, hk⟩ = e ∧
        ∀ (j : Nat) (hj : j < st.1.current.queue.length), j < k →
          keyMatch pid0 name (st.1.current.queue.get ⟨j, hj⟩) = false) →
      ∃ (hk : k < (l.foldl (processOneItem clock fetch name) st).1.current.queue.length),
        (l.foldl (processOneItem clock fetch name) st).1.current.queue.get ⟨k, hk⟩ = e ∧
        ∀ (j : Nat)
          (hj : j < (l.foldl (processOneItem clock fetch name) st).1.current.queue.length),
          j < k → keyMatch pid0 name
            ((l.foldl (processOneItem clock fetch name) st).1.current.queue.get
              ⟨j, hj⟩) = false := by
  intro l
  induction l with
  | nil =>
    intro _ st hP
    exact hP
  | cons x xs ih =>
    intro hl st hP
    have hx : x ≠ pid0 := fun hxe => hl (hxe ▸ List.mem_cons_self x xs)
    have hxs : pid0 ∉ xs := fun hmem => hl (List.mem_cons_of_mem x hmem)
    rw [List.foldl_cons]
    apply ih hxs
    obtain ⟨hk, hke, hpre⟩ := hP
    obtain ⟨hlen, hpoint⟩ := poi_queue_shape clock fetch name st x
    have hk2 : k < (processOneItem clock fetch name st x).1.current.queue.length := by
      rw [hlen]
      exact hk
    refine ⟨hk2, ?_, ?_⟩
    · rcases hpoint k hk hk2 with h | ⟨hkm, -⟩
      · rw [h]
        exact hke
      · exfalso
        rw [hke] at hkm
        exact hx (((keyMatch_true_pid hkm).1).symm.trans (keyMatch_true_pid hkey).1)
    · intro j hj hjk
      have hjold : j < st.1.current.queue.length := by
        rw [← hlen]
        exact hj
      rcases hpoint j hjold hj with h | ⟨-, t, b, m, h⟩
      · rw [h]
        exact hpre j hjold hjk
      · rw [h, keyMatch_statusUpd]
        exact hpre j hjold hjk

/-- Looping over ids distinct from `pid0` preserves the recorded failure on
the `(pid0, name)` row at index `k`. -/
theorem fold_written (clock : Nat → Nat) (fetch : Nat → FetchOutcome)
    (name : String) (pid0 : Nat) (ec : Nat) (le : Option String) (sp : Int)
    (k : Nat) :
    ∀ (l : List Nat), pid0 ∉ l → ∀ (st : DbSession × Nat × Nat),
      (∃ (hk : k < st.1.current.queue.length),
        (st.1.current.queue.get ⟨k, hk⟩).product_id = pid0 ∧
        (st.1.current.queue.get ⟨k, hk⟩).error_count = ec ∧
        (st.1.current.queue.get ⟨k, hk⟩).last_error = le ∧
        (st.1.current.queue.get ⟨k, hk⟩).scan_priority = sp) →
      ∃ (hk : k < (l.foldl (processOneItem clock fetch name) st).1.current.queue.length),
        ((l.foldl (processOneItem clock fetch name) st).1.current.queue.get
          ⟨k, hk⟩).product_id = pid0 ∧
        ((l.foldl (processOneItem clock fetch name) st).1.current.queue.get
          ⟨k, hk⟩).error_count = ec ∧
        ((l.foldl (processOneItem clock fetch name) st).1.current.queue.get
          ⟨k, hk⟩).last_error = le ∧
        ((l.foldl (processOneItem clock fetch name) st).1.current.queue.get
          ⟨k, hk⟩).scan_priority = sp := by
  intro l
  induction l with
  | nil =>
    intro _ st hP
    exact hP
  | cons x xs ih =>
    intro hl st hP
    have hx : x ≠ pid0 := fun hxe => hl (hxe ▸ List.mem_cons_self x xs)
    have hxs : pid0 ∉ xs := fun hmem => hl (List.mem_cons_of_mem x hmem)
    rw [List.foldl_cons]
    apply ih hxs
    obtain ⟨hk, hpid, hec, hle, hsp⟩ := hP
    obtain ⟨hlen, hpoint⟩ := poi_queue_shape clock fetch name st x
    have hk2 : k < (processOneItem clock fetch name st x).1.current.queue.length := by
      rw [hlen]
      exact hk
    rcases hpoint k hk hk2 with h | ⟨hkm, -⟩
    · exact ⟨hk2, by rw [h]; exact hpid, by rw [h]; exact hec,
        by rw [h]; exact hle, by rw [h]; exact hsp⟩
    · exfalso
      exact hx ((keyMatch_true_pid hkm).1.symm.trans hpid)

/-- The committed database state is constant across the whole loop. -/
theorem fold_committed (clock : Nat → Nat) (fetch : Nat → FetchOutcome)
    (name : String) :
    ∀ (l : List Nat) (st : DbSession × Nat × Nat),
      (l.foldl (processOneItem clock fetch name) st).1.committed =
        st.1.committed
  | [], _ => rfl
  | x :: xs, st => by
    rw [List.foldl_cons]
    rw [fold_committed clock fetch name xs (processOneItem clock fetch name st x)]
    exact poi_committed clock fetch name st x

/-- C5. `runBatch` (`ScrapingService.process_batch`) error handling.
Part 1: an exception raised while processing a single item (`pid0`, with
the first matching queue row split out as `q1 ++ e :: q2`) is caught and
counted as that item's failure, the failure is recorded on that queue row
(`error_count` and `scan_priority` + 1, message stored), every item is
still fetched (the trace has one `fetchOne` per batch id) and the call
reports `success = true` with the failure only reflected in the error
count. Part 2: a top-level exception (a failing commit) rolls back the
whole unit of work and returns `success = false` with the exception's
message and all counts zero. -/
theorem C5_batch_error_isolation (clock : Nat → Nat)
    (fetch : Nat → FetchOutcome) (name : String) (s : DbSession)
    (ps : List QueueEntry) (hknown : scrapersKnown name = true)
    (hbatch : get_next_batch s.current.queue name 1000 = Except.ok ps) :
    (∀ (msg : String) (pid0 : Nat) (l1 l2 : List Nat)
        (q1 : List QueueEntry) (e : QueueEntry) (q2 : List QueueEntry),
        ps.map (fun p => p.product_id) = l1 ++ pid0 :: l2 →
        pid0 ∉ l1 → pid0 ∉ l2 →
        fetch pid0 = FetchOutcome.raised msg →
        s.current.queue = q1 ++ e :: q2 →
        (∀ y ∈ q1, keyMatch pid0 name y = false) →
        keyMatch pid0 name e = true →
        ∃ r s' tr, process_batch clock fetch none name s = .ok (r, s', tr) ∧
          r.success = true ∧
          r.message = "Batch processing completed" ∧
          r.products_processed = ps.length ∧
          r.errors = (ps.map (fun p => p.product_id)).countP
            (fun pid => isFail (fetch pid)) ∧
          r.products_updated = (ps.map (fun p => p.product_id)).countP
            (fun pid => !isFail (fetch pid)) ∧
          tr = (ps.map (fun p => p.product_id)).map ScrEvent.fetchOne ∧
          ∃ (hk : q1.length < s'.current.queue.length),
            (s'.current.queue.get ⟨q1.length, hk⟩).error_count =
              e.error_count + 1 ∧
            (s'.current.queue.get ⟨q1.length, hk⟩).last_error = some msg ∧
            (s'.current.queue.get ⟨q1.length, hk⟩).scan_priority =
              e.scan_priority + 1) ∧
    (∀ (msg : String), s.current = s.committed → ps ≠ [] →
        ∃ r s' tr, process_batch clock fetch (some msg) name s = .ok (r, s', tr) ∧
          r = { success := false, message := msg, products_processed := 0,
                products_updated := 0, errors := 0 } ∧
          s'.current = s.current ∧ s'.committed = s.committed) := by
  constructor
  · intro msg pid0 l1 l2 q1 e q2 hids hn1 hn2 hfail hsplitq hpre hkey
    have hne : (ps.map (fun p => p.product_id)).isEmpty = false := by
      rw [hids]
      cases l1 <;> rfl
    have hinner : process_batch_inner clock fetch none name s ps =
        process_batch_run clock fetch none name s ps := by
      unfold process_batch_inner
      rw [hne]
      simp
    have hpb : process_batch clock fetch none name s =
        .ok (process_batch_run clock fetch none name s ps) := by
      unfold process_batch
      rw [if_neg (fun hcon => hcon hknown), hbatch, ← hinner]
    refine ⟨_, _, _, hpb, rfl, rfl, by simp, ?_, ?_, rfl, ?_⟩
    · show ((ps.map (fun p => p.product_id)).foldl
          (processOneItem clock fetch name) (s, 0, 0)).2.2 = _
      have h := (foldl_counters clock fetch name
        (ps.map (fun p => p.product_id)) (s, 0, 0)).2
      simpa using h
    · show ((ps.map (fun p => p.product_id)).foldl
          (processOneItem clock fetch name) (s, 0, 0)).2.1 = _
      have h := (foldl_counters clock fetch name
        (ps.map (fun p => p.product_id)) (s, 0, 0)).1
      simpa using h
    · -- the failure recorded on the protected row at index q1.length
      have hk0 : q1.length < s.current.queue.length := by
        rw [hsplitq, List.length_append, List.length_cons]
        omega
      have hsk : q1.length < (q1 ++ e :: q2).length := by
        rw [List.length_append, List.length_cons]
        omega
      have hke0 : s.current.queue.get ⟨q1.length, hk0⟩ = e := by
        rw [get_congr hsplitq q1.length hk0 hsk]
        exact get_append_length q1 e q2 hsk
      have hpre0 : ∀ (j : Nat) (hj : j < s.current.queue.length),
          j < q1.length →
          keyMatch pid0 name (s.current.queue.get ⟨j, hj⟩) = false := by
        intro j hj hjk
        have h3 : j < (q1 ++ e :: q2).length := by
          rw [← hsplitq]
          exact hj
        rw [get_congr hsplitq j hj h3]
        have h4 : (q1 ++ e :: q2).get ⟨j, h3⟩ = q1.get ⟨j, hjk⟩ := by
          simp only [List.get_eq_getElem]
          exact List.getElem_append_left hjk
        rw [h4]
        exact hpre _ (List.get_mem _ _ _)
      obtain ⟨hk1, hke1, hpre1⟩ := fold_protected clock fetch name pid0 e hkey
        q1.length l1 hn1 (s, 0, 0) ⟨hk0, hke0, hpre0⟩
      have hq2eq := poi_raised_queue clock fetch name
        (l1.foldl (processOneItem clock fetch name) (s, 0, 0)) pid0 msg hfail
      obtain ⟨hk2, hwp, hwe, hwl, hws⟩ := uss_write_failure clock
        (l1.foldl (processOneItem clock fetch name) (s, 0, 0)).1.current.queue
        (l1.foldl (processOneItem clock fetch name) (s, 0, 0)).1.tick
        pid0 name msg q1.length hk1 (by rw [hke1]; exact hkey) hpre1
      have hk2' : q1.length < (processOneItem clock fetch name
          (l1.foldl (processOneItem clock fetch name) (s, 0, 0))
          pid0).1.current.queue.length := by
        rw [hq2eq]
        exact hk2
      have hgetp := get_congr hq2eq q1.length hk2' hk2
      have hP2 : (((processOneItem clock fetch name
          (l1.foldl (processOneItem clock fetch name) (s, 0, 0))
          pid0).1.current.queue.get ⟨q1.length, hk2'⟩).product_id = pid0 ∧
          ((processOneItem clock fetch name
            (l1.foldl (processOneItem clock fetch name) (s, 0, 0))
            pid0).1.current.queue.get ⟨q1.length, hk2'⟩).error_count =
            e.error_count + 1 ∧
          ((processOneItem clock fetch name
            (l1.foldl (processOneItem clock fetch name) (s, 0, 0))
            pid0).1.current.queue.get ⟨q1.length, hk2'⟩).last_error = some msg ∧
          ((processOneItem clock fetch name
            (l1.foldl (processOneItem clock fetch name) (s, 0, 0))
            pid0).1.current.queue.get ⟨q1.length, hk2'⟩).scan_priority =
            e.scan_priority + 1) := by
        rw [hgetp]
        refine ⟨?_, ?_, hwl, ?_⟩
        · rw [hwp, hke1]
          exact (keyMatch_true_pid hkey).1
        · rw [hwe, hke1]
        · rw [hws, hke1]
      obtain ⟨hk3, h3p, h3e, h3l, h3s⟩ := fold_written clock fetch name pid0
        (e.error_count + 1) (some msg) (e.scan_priority + 1) q1.length l2 hn2
        (processOneItem clock fetch name
          (l1.foldl (processOneItem clock fetch name) (s, 0, 0)) pid0)
        ⟨hk2', hP2.1, hP2.2.1, hP2.2.2.1, hP2.2.2.2⟩
      have hfoldeq : (ps.map (fun p => p.product_id)).foldl
          (processOneItem clock fetch name) (s, 0, 0) =
          l2.foldl (processOneItem clock fetch name)
            (processOneItem clock fetch name
              (l1.foldl (processOneItem clock fetch name) (s, 0, 0)) pid0) := by
        rw [hids, List.foldl_append, List.foldl_cons]
      show ∃ (hk : q1.length <
          (update_scan_results clock
            ((ps.map (fun p => p.product_id)).foldl
              (processOneItem clock fetch name) (s, 0, 0)).1.current.queue
            ((ps.map (fun p => p.product_id)).foldl
              (processOneItem clock fetch name) (s, 0, 0)).1.tick ps).1.length), _
      rw [hfoldeq]
      obtain ⟨hk4, hu1, hu2, hu3, hu4, hu5⟩ := usr_fields clock ps
        (l2.foldl (processOneItem clock fetch name)
          (processOneItem clock fetch name
            (l1.foldl (processOneItem clock fetch name) (s, 0, 0))
            pid0)).1.current.queue
        (l2.foldl (processOneItem clock fetch name)
          (processOneItem clock fetch name
            (l1.foldl (processOneItem clock fetch name) (s, 0, 0))
            pid0)).1.tick q1.length hk3
      exact ⟨hk4, hu3.trans h3e, hu4.trans h3l, hu5.trans h3s⟩
  · intro msg hclean hpsne
    have hne : (ps.map (fun p => p.product_id)).isEmpty = false := by
      cases ps with
      | nil => exact absurd rfl hpsne
      | cons a t => rfl
    have hinner : process_batch_inner clock fetch (some msg) name s ps =
        process_batch_run clock fetch (some msg) name s ps := by
      unfold process_batch_inner
      rw [hne]
      simp
    have hpb : process_batch clock fetch (some msg) name s =
        .ok (process_batch_run clock fetch (some msg) name s ps) := by
      unfold process_batch
      rw [if_neg (fun hcon => hcon hknown), hbatch, ← hinner]
    refine ⟨_, _, _, hpb, rfl, ?_, ?_⟩
    · show ((ps.map (fun p => p.product_id)).foldl
          (processOneItem clock fetch name) (s, 0, 0)).1.committed = s.current
      rw [fold_committed]
      exact hclean.symm
    · show ((ps.map (fun p => p.product_id)).foldl
          (processOneItem clock fetch name) (s, 0, 0)).1.committed = s.committed
      rw [fold_committed]

/-- Witness for C5: a two-item batch whose second item's fetch raises
"boom" (part 1), and a failing commit with message "down" (part 2). -/
theorem C5_batch_error_isolation_witness :
    (∃ r s' tr,
      process_batch id
        (fun pid => if pid == 2 then FetchOutcome.raised "boom"
          else FetchOutcome.notFound) none "bonpreu"
        ⟨⟨[], [⟨1, "bonpreu", none, 0, 0, none, 0, 0, 0⟩,
               ⟨2, "bonpreu", none, 0, 0, none, 0, 0, 0⟩], []⟩,
         ⟨[], [⟨1, "bonpreu", none, 0, 0, none, 0, 0, 0⟩,
               ⟨2, "bonpreu", none, 0, 0, none, 0, 0, 0⟩], []⟩, 0⟩ =
        .ok (r, s', tr) ∧
      r.success = true ∧
      r.message = "Batch processing completed" ∧
      r.products_processed = [(⟨1, "bonpreu", none, 0, 0, none, 0, 0, 0⟩ : QueueEntry),
        ⟨2, "bonpreu", none, 0, 0, none, 0, 0, 0⟩].length ∧
      r.errors = ([(⟨1, "bonpreu", none, 0, 0, none, 0, 0, 0⟩ : QueueEntry),
        ⟨2, "bonpreu", none, 0, 0, none, 0, 0, 0⟩].map (fun p => p.product_id)).countP
        (fun pid => isFail (if pid == 2 then FetchOutcome.raised "boom"
          else FetchOutcome.notFound)) ∧
      r.products_updated = ([(⟨1, "bonpreu", none, 0, 0, none, 0, 0, 0⟩ : QueueEntry),
        ⟨2, "bonpreu", none, 0, 0, none, 0, 0, 0⟩].map (fun p => p.product_id)).countP
        (fun pid => !isFail (if pid == 2 then FetchOutcome.raised "boom"
          else FetchOutcome.notFound)) ∧
      tr = ([(⟨1, "bonpreu", none, 0, 0, none, 0, 0, 0⟩ : QueueEntry),
        ⟨2, "bonpreu", none, 0, 0, none, 0, 0, 0⟩].map
          (fun p => p.product_id)).map ScrEvent.fetchOne ∧
      ∃ (hk : [(⟨1, "bonpreu", none, 0, 0, none, 0, 0, 0⟩ : QueueEntry)].length <
          s'.current.queue.length),
        (s'.current.queue.get ⟨[(⟨1, "bonpreu", none, 0, 0, none, 0, 0, 0⟩ : QueueEntry)].length,
          hk⟩).error_count = (⟨2, "bonpreu", none, 0, 0, none, 0, 0, 0⟩ : QueueEntry).error_count + 1 ∧
        (s'.current.queue.get ⟨[(⟨1, "bonpreu", none, 0, 0, none, 0, 0, 0⟩ : QueueEntry)].length,
          hk⟩).last_error = some "boom" ∧
        (s'.current.queue.get ⟨[(⟨1, "bonpreu", none, 0, 0, none, 0, 0, 0⟩ : QueueEntry)].length,
          hk⟩).scan_priority = (⟨2, "bonpreu", none, 0, 0, none, 0, 0, 0⟩ : QueueEntry).scan_priority + 1) ∧
    (∃ r s' tr,
      process_batch id
        (fun pid => if pid == 2 then FetchOutcome.raised "boom"
          else FetchOutcome.notFound) (some "down") "bonpreu"
        ⟨⟨[], [⟨1, "bonpreu", none, 0, 0, none, 0, 0, 0⟩,
               ⟨2, "bonpreu", none, 0, 0, none, 0, 0, 0⟩], []⟩,
         ⟨[], [⟨1, "bonpreu", none, 0, 0, none, 0, 0, 0⟩,
               ⟨2, "bonpreu", none, 0, 0, none, 0, 0, 0⟩], []⟩, 0⟩ =
        .ok (r, s', tr) ∧
      r = { success := false, message := "down", products_processed := 0,
            products_updated := 0, errors := 0 } ∧
      s'.current = (⟨⟨[], [⟨1, "bonpreu", none, 0, 0, none, 0, 0, 0⟩,
               ⟨2, "bonpreu", none, 0, 0, none, 0, 0, 0⟩], []⟩,
         ⟨[], [⟨1, "bonpreu", none, 0, 0, none, 0, 0, 0⟩,
               ⟨2, "bonpreu", none, 0, 0, none, 0, 0, 0⟩], []⟩, 0⟩ : DbSession).current ∧
      s'.committed = (⟨⟨[], [⟨1, "bonpreu", none, 0, 0, none, 0, 0, 0⟩,
               ⟨2, "bonpreu", none, 0, 0, none, 0, 0, 0⟩], []⟩,
         ⟨[], [⟨1, "bonpreu", none, 0, 0, none, 0, 0, 0⟩,
               ⟨2, "bonpreu", none, 0, 0, none, 0, 0, 0⟩], []⟩, 0⟩ : DbSession).committed) :=
  ⟨(C5_batch_error_isolation id
      (fun pid => if pid == 2 then FetchOutcome.raised "boom"
        else FetchOutcome.notFound) "bonpreu"
      ⟨⟨[], [⟨1, "bonpreu", none, 0, 0, none, 0, 0, 0⟩,
             ⟨2, "bonpreu", none, 0, 0, none, 0, 0, 0⟩], []⟩,
       ⟨[], [⟨1, "bonpreu", none, 0, 0, none, 0, 0, 0⟩,
             ⟨2, "bonpreu", none, 0, 0, none, 0, 0, 0⟩], []⟩, 0⟩
      [⟨1, "bonpreu", none, 0, 0, none, 0, 0, 0⟩,
       ⟨2, "bonpreu", none, 0, 0, none, 0, 0, 0⟩] (by decide) (by decide)).1
    "boom" 2 [1] [] [⟨1, "bonpreu", none, 0, 0, none, 0, 0, 0⟩]
    ⟨2, "bonpreu", none, 0, 0, none, 0, 0, 0⟩ [] rfl (by decide) (by decide)
    rfl rfl (by decide) (by decide),
   (C5_batch_error_isolation id
      (fun pid => if pid == 2 then FetchOutcome.raised "boom"
        else FetchOutcome.notFound) "bonpreu"
      ⟨⟨[], [⟨1, "bonpreu", none, 0, 0, none, 0, 0, 0⟩,
             ⟨2, "bonpreu", none, 0, 0, none, 0, 0, 0⟩], []⟩,
       ⟨[], [⟨1, "bonpreu", none, 0, 0, none, 0, 0, 0⟩,
             ⟨2, "bonpreu", none, 0, 0, none, 0, 0, 0⟩], []⟩, 0⟩
      [⟨1, "bonpreu", none, 0, 0, none, 0, 0, 0⟩,
       ⟨2, "bonpreu", none, 0, 0, none, 0, 0, 0⟩] (by decide) (by decide)).2
    "down" rfl (by decide)⟩

/-- C2 (counterexample). Two `recordIfChanged` calls on the same key that
both pass no previous product (`old_product = None`) leave two rows with
`is_current = true`: `create_price_history_entry` closes nothing when
`old_product` is `None`, even though an open row exists. -/
theorem C2_counterexample_double_open :
    ¬ (currentCount (runLedger id ([], 0)
        [⟨⟨1, "m", none, none⟩, false⟩, ⟨⟨1, "m", none, none⟩, false⟩]).1 1 "m" ≤ 1) := by
  decide

/-- C2 (amended). For every sequence of `recordIfChanged` calls in which a
previous product is passed whenever an open row for the call's key exists
(`WFCalls`), after each call (every prefix of the run) at most one stored
row per key has `is_current = true`, and every closed row has
`valid_to ≥ valid_from` — under a monotone wall clock. -/
theorem C2_scd2_invariant (clock : Nat → Nat) (hm : Monotone clock) :
    ∀ (calls : List PriceCall) (s : List PHRow × Nat),
      LedgerInv clock s → WFCalls clock s calls = true →
      ∀ n, LedgerInv clock (runLedger clock s (calls.take n)) := by
  intro calls
  induction calls with
  | nil =>
    intro s hinv _ n
    simpa [runLedger] using hinv
  | cons c cs ih =>
    intro s hinv hwf n
    cases n with
    | zero => simpa [runLedger] using hinv
    | succ n =>
      rw [List.take_succ_cons]
      have hrun : runLedger clock s (c :: cs.take n) =
          runLedger clock (stepLedger clock s c) (cs.take n) := rfl
      rw [hrun]
      unfold WFCalls at hwf
      rw [Bool.and_eq_true] at hwf
      have hcond : currentCount s.1 c.data.product_id c.data.supermarket_name = 0 ∨
          c.prevExists = true := by
        rcases Bool.or_eq_true _ _ |>.mp hwf.1 with h | h
        · exact Or.inl (of_decide_eq_true h)
        · exact Or.inr h
      exact ih (stepLedger clock s c)
        (ledgerInv_step clock hm s c hinv hcond) hwf.2 n

/-- Witness for C2 (amended): first observation, then a changed price with
the previous product passed; the invariant holds after both calls. -/
theorem C2_scd2_invariant_witness :
    LedgerInv id (runLedger id ([], 0)
      (List.take 2 [⟨⟨1, "m", some 1, none⟩, false⟩, ⟨⟨1, "m", some 2, none⟩, true⟩])) :=
  C2_scd2_invariant id (fun _ _ h => h)
    [⟨⟨1, "m", some 1, none⟩, false⟩, ⟨⟨1, "m", some 2, none⟩, true⟩] ([], 0)
    ⟨fun pid name => by simp [currentCount],
     fun r hr => absurd hr (List.not_mem_nil _),
     fun r hr => absurd hr (List.not_mem_nil _)⟩
    (by decide) 2

/-- C3. The close-and-open pair does NOT use a single timestamp: the close
takes one `datetime.now` reading and the insert takes a second, later one.
With the strictly increasing clock `id`, after a first observation and one
changed-price call, the closed row carries `valid_to = some 1` while the new
open row carries `valid_from = 2` — a gap, contradicting the claim that the
two are equal. -/
theorem C3_close_reopen_gap :
    ((runLedger id ([], 0)
        [⟨⟨1, "m", none, none⟩, false⟩, ⟨⟨1, "m", some 2, none⟩, true⟩]).1.map
      fun r => (r.is_current, r.valid_from, r.valid_to)) =
      [(false, 0, some 1), (true, 2, none)] ∧
    (((runLedger id ([], 0)
        [⟨⟨1, "m", none, none⟩, false⟩, ⟨⟨1, "m", some 2, none⟩, true⟩]).1.filter
          fun r => !r.is_current).map fun r => r.valid_to) ≠
      (((runLedger id ([], 0)
        [⟨⟨1, "m", none, none⟩, false⟩, ⟨⟨1, "m", some 2, none⟩, true⟩]).1.filter
          fun r => r.is_current).map fun r => some r.valid_from) := by
  refine ⟨by decide, by decide⟩
